import Mathlib

/-!
Verification of the graphsight incremental graph construction and
consistency reconciliation engine, and of the draft/refine graph model.

The definitions below are shallow embeddings of the Python source:
  * `src/graphsight/models.py` (Focus, StepInterpretation, ConnectedNode)
  * `src/graphsight/core/engine.py` (NodeRegistry, GraphInterpreter)
  * `src/graphsight/pipelines/stable/draft_refine/models.py`
  * `src/graphsight/pipelines/stable/draft_refine/mermaid.py`
  * `src/graphsight/pipelines/stable/draft_refine/draft_refine_structured.py`

Numeric model: the only floating-point computation in scope is
`Focus.is_same_location_hybrid`, which halves sums of two bbox integers,
squares the differences and compares against a squared threshold.  For
the integer inputs involved this is exact arithmetic, so it is modelled
over `Int` with denominators cleared: the centroid is kept in doubled
coordinates (`(y0+y1, x0+x1)` is twice the Python `((y0+y1)/2, ...)`),
and `dist_sq < threshold**2` becomes `4*dist_sq' < 4*threshold**2` with
`dist_sq'` the squared distance of the doubled centroids divided by 4,
i.e. `(Δy)^2 + (Δx)^2 < 4*t^2`.  The `(0.0, 0.0)` missing-bbox sentinel
check becomes `(0, 0)` on doubled coordinates (`s/2 = 0 ↔ s = 0`).

Python dicts preserve insertion order and are modelled by association
lists; Python sets are modelled by lists compared up to membership, with
insertion-order iteration (the engine depends on set iteration order
only for log text and for the order in which ids are handed back to the
oracle, over which the theorems quantify).
-/

namespace Graphsight

/-- `models.py` `Focus`: a region-of-interest hypothesis.  `bbox` is
`[ymin, xmin, ymax, xmax]`, `grid_refs` a list of grid-cell labels. -/
structure Focus where
  description : String
  suggested_id : Option String := none
  bbox : Option (List Int) := none
  grid_refs : Option (List String) := none
deriving Repr, DecidableEq

/-- `Focus.centroid` in doubled coordinates: twice the centre of the
bounding box, `(0, 0)` when the bbox is missing or malformed
(`if not self.bbox or len(self.bbox) != 4`, which also covers the
falsy empty list). -/
def Focus.centroid2 (self : Focus) : Int × Int :=
  match self.bbox with
  | some [y0, x0, y1, x1] => (y0 + y1, x0 + x1)
  | _ => (0, 0)

/-- Python `not set(xs).isdisjoint(set(ys))`: the two lists share an element. -/
def listIntersects (xs ys : List String) : Bool :=
  xs.any (fun x => ys.contains x)

/-- The grid half of `Focus.is_same_location_hybrid`: both `grid_refs`
present and truthy (non-empty) and not disjoint. -/
def Focus.grid_match (self other : Focus) : Bool :=
  match self.grid_refs, other.grid_refs with
  | some gs, some os => !gs.isEmpty && !os.isEmpty && listIntersects gs os
  | _, _ => false

/-- The bbox half of `Focus.is_same_location_hybrid`: both centroids
distinct from the `(0.0, 0.0)` missing-bbox sentinel and squared
centroid distance strictly below the squared threshold (stated in
doubled coordinates, hence the factor 4). -/
def Focus.bbox_match (self other : Focus) (spatial_threshold : Int) : Bool :=
  let c1 := self.centroid2
  let c2 := other.centroid2
  if c1 ≠ ((0 : Int), (0 : Int)) ∧ c2 ≠ ((0 : Int), (0 : Int)) then
    decide ((c1.1 - c2.1) * (c1.1 - c2.1) + (c1.2 - c2.2) * (c1.2 - c2.2)
              < 4 * (spatial_threshold * spatial_threshold))
  else
    false

/-- `models.py` `Focus.is_same_location_hybrid`: OR of the grid check
and the bbox check. -/
def Focus.is_same_location_hybrid (self other : Focus) (spatial_threshold : Int) : Bool :=
  self.grid_match other || self.bbox_match other spatial_threshold

/-- `engine.py` `NodeRegistry`: insertion-ordered map from base id to the
list of focus clusters registered under that id. -/
structure NodeRegistry where
  nodes : List (String × List Focus) := []
  mode : String := "bbox"
  threshold : Int := 100
deriving Repr, DecidableEq

/-- Ordered-dict lookup. -/
def lookupAssoc (m : List (String × List Focus)) (k : String) : Option (List Focus) :=
  match m.find? (fun p => p.1 == k) with
  | some p => some p.2
  | none => none

/-- Ordered-dict update of an existing key (insertion order preserved). -/
def updateAssoc (m : List (String × List Focus)) (k : String) (v : List Focus) :
    List (String × List Focus) :=
  m.map (fun p => if p.1 == k then (k, v) else p)

/-- `engine.py` `NodeRegistry.resolve_id`.  The Python truthiness test
`focus.suggested_id if focus.suggested_id else "node_Unknown"` treats
both `None` and the empty string as missing. -/
def NodeRegistry.resolve_id (reg : NodeRegistry) (focus : Focus) : String × NodeRegistry :=
  let base_id :=
    match focus.suggested_id with
    | some s => if s = "" then "node_Unknown" else s
    | none => "node_Unknown"
  match lookupAssoc reg.nodes base_id with
  | none =>
      (base_id, { reg with nodes := reg.nodes ++ [(base_id, [focus])] })
  | some candidates =>
      match candidates.findIdx? (fun c => focus.is_same_location_hybrid c reg.threshold) with
      | some i => (if i = 0 then base_id else base_id ++ "_" ++ toString (i + 1), reg)
      | none =>
          (base_id ++ "_" ++ toString (candidates.length + 1),
           { reg with nodes := updateAssoc reg.nodes base_id (candidates ++ [focus]) })

end Graphsight

namespace Graphsight

/-- Resolving the same focus twice on a fresh registry, as a pair of ids. -/
def resolveTwiceFresh (f : Focus) (mode : String) (t : Int) : String × String :=
  let reg0 : NodeRegistry := { nodes := [], mode := mode, threshold := t }
  let r1 := reg0.resolve_id f
  let r2 := r1.2.resolve_id f
  (r1.1, r2.1)

/-- Claim C3 (counterexample): a Focus with neither grid refs nor a usable
bbox is not same-location with itself, so a fresh registry resolves it to
"A" the first time and to "A_2" the second time. -/
theorem C3_counterexample :
    (resolveTwiceFresh { description := "x", suggested_id := some "A" } "bbox" 100).1 = "A" ∧
    (resolveTwiceFresh { description := "x", suggested_id := some "A" } "bbox" 100).2 = "A_2" := by
  constructor <;> rfl

/-- Claim C3 (amended): resolving an identical Focus twice on a fresh
registry returns the same id both times, provided the Focus passes the
hybrid identity check against itself (it has non-empty grid refs or a
bbox whose centroid is not the `(0,0)` missing-bbox sentinel). -/
theorem C3_amended (f : Focus) (mode : String) (t : Int)
    (h : f.is_same_location_hybrid f t = true) :
    (resolveTwiceFresh f mode t).2 = (resolveTwiceFresh f mode t).1 := by
  simp only [resolveTwiceFresh, NodeRegistry.resolve_id, lookupAssoc, List.find?_nil]
  simp only [List.find?, beq_self_eq_true, List.findIdx?_cons, List.findIdx?_nil, h]
  rfl

/-- Witness for `C3_amended` at a concrete Focus with a grid reference. -/
theorem C3_amended_witness :
    (Focus.is_same_location_hybrid
        { description := "x", suggested_id := some "A", grid_refs := some ["C3"] }
        { description := "x", suggested_id := some "A", grid_refs := some ["C3"] } 100 = true) ∧
    (resolveTwiceFresh
        { description := "x", suggested_id := some "A", grid_refs := some ["C3"] } "bbox" 100).2 =
      (resolveTwiceFresh
        { description := "x", suggested_id := some "A", grid_refs := some ["C3"] } "bbox" 100).1 :=
  ⟨by decide, C3_amended _ "bbox" 100 (by decide)⟩

end Graphsight

namespace Graphsight

/-- A fresh registry as the engine constructs it (`mode` irrelevant to
`resolve_id`; the engine passes `spatial_threshold=150.0`). -/
def freshReg (t : Int) : NodeRegistry :=
  { nodes := [], mode := "bbox", threshold := t }

/-- First registration of a focus under a non-empty suggested id. -/
theorem resolve_id_fresh (t : Int) (f : Focus) (s : String)
    (h : f.suggested_id = some s) (hs : s ≠ "") :
    (freshReg t).resolve_id f = (s, { nodes := [(s, [f])], mode := "bbox", threshold := t }) := by
  simp [NodeRegistry.resolve_id, lookupAssoc, freshReg, h, hs]

/-- Resolution against a registry holding a single cluster list under `s`. -/
theorem resolve_id_single (t : Int) (cs : List Focus) (f : Focus) (s : String)
    (h : f.suggested_id = some s) (hs : s ≠ "") :
    ({ nodes := [(s, cs)], mode := "bbox", threshold := t } : NodeRegistry).resolve_id f =
      match cs.findIdx? (fun c => f.is_same_location_hybrid c t) with
      | some i => (if i = 0 then s else s ++ "_" ++ toString (i + 1),
                   { nodes := [(s, cs)], mode := "bbox", threshold := t })
      | none => (s ++ "_" ++ toString (cs.length + 1),
                 { nodes := [(s, cs ++ [f])], mode := "bbox", threshold := t }) := by
  simp only [NodeRegistry.resolve_id, lookupAssoc, updateAssoc, h, hs]
  simp [List.find?, hs]

end Graphsight

namespace Graphsight

/-- The counterexample foci for C4: the same suggested id, disjoint grid
refs, and the degenerate bbox `[0,0,0,0]`, whose centroid is `(0,0)` —
at distance `0 < 150` from each other, yet hitting the missing-bbox
sentinel of the code. -/
def c4f1 : Focus :=
  { description := "a", suggested_id := some "id", bbox := some [0, 0, 0, 0],
    grid_refs := some ["A1"] }

def c4f2 : Focus :=
  { description := "b", suggested_id := some "id", bbox := some [0, 0, 0, 0],
    grid_refs := some ["B2"] }

/-- Claim C4 (counterexample): two foci under the same suggested id with
disjoint grid refs and bbox centroids at squared distance 0 (strictly
below the threshold 150) nevertheless resolve to distinct ids, because a
centroid equal to the `(0,0)` sentinel is excluded from the bbox check. -/
theorem C4_counterexample :
    listIntersects ["A1"] ["B2"] = false ∧
    ((c4f1.centroid2.1 - c4f2.centroid2.1) * (c4f1.centroid2.1 - c4f2.centroid2.1)
      + (c4f1.centroid2.2 - c4f2.centroid2.2) * (c4f1.centroid2.2 - c4f2.centroid2.2)
      < 4 * (150 * 150)) ∧
    ((freshReg 150).resolve_id c4f1).1 = "id" ∧
    ((((freshReg 150).resolve_id c4f1).2).resolve_id c4f2).1 = "id_2" := by
  refine ⟨rfl, by decide, rfl, rfl⟩

/-- Claim C4 (amended): OR semantics of the hybrid identity check in
`resolve_id`, for foci registered under the same non-empty suggested id:
a second focus passing the bbox-centroid check alone (which requires
both centroids to differ from the `(0,0)` missing-bbox sentinel) gets
the first id back; one passing the grid-overlap check alone also does;
one failing the full hybrid check gets the ordinal suffix `_2`, and a
third focus failing against both earlier clusters gets `_3`. -/
theorem C4_amended (s : String) (t : Int) (f1 f2 f3 : Focus)
    (hs : s ≠ "")
    (h1 : f1.suggested_id = some s) (h2 : f2.suggested_id = some s)
    (h3 : f3.suggested_id = some s) :
    (((freshReg t).resolve_id f1).1 = s) ∧
    (f2.bbox_match f1 t = true →
      ((((freshReg t).resolve_id f1).2).resolve_id f2).1 = s) ∧
    (f2.grid_match f1 = true →
      ((((freshReg t).resolve_id f1).2).resolve_id f2).1 = s) ∧
    (f2.is_same_location_hybrid f1 t = false →
      ((((freshReg t).resolve_id f1).2).resolve_id f2).1 = s ++ "_2" ∧
      (f3.is_same_location_hybrid f1 t = false →
       f3.is_same_location_hybrid f2 t = false →
       (((((freshReg t).resolve_id f1).2).resolve_id f2).2.resolve_id f3).1 = s ++ "_3")) := by
  rw [resolve_id_fresh t f1 s h1 hs]
  refine ⟨rfl, ?_, ?_, ?_⟩
  · intro hb
    rw [resolve_id_single t [f1] f2 s h2 hs]
    have : f2.is_same_location_hybrid f1 t = true := by
      simp [Focus.is_same_location_hybrid, hb]
    simp [List.findIdx?_cons, this]
  · intro hg
    rw [resolve_id_single t [f1] f2 s h2 hs]
    have : f2.is_same_location_hybrid f1 t = true := by
      simp [Focus.is_same_location_hybrid, hg]
    simp [List.findIdx?_cons, this]
  · intro hno
    have hfind : List.findIdx? (fun c => Focus.is_same_location_hybrid f2 c t) [f1] = none := by
      simp [List.findIdx?_cons, hno]
    rw [resolve_id_single t [f1] f2 s h2 hs, hfind]
    constructor
    · show s ++ "_" ++ toString (1 + 1) = s ++ "_2"
      rw [String.append_assoc]
      rfl
    · intro h31 h32
      have hfind3 : List.findIdx? (fun c => Focus.is_same_location_hybrid f3 c t) [f1, f2] =
          none := by
        simp [List.findIdx?_cons, h31, h32]
      show (({ nodes := [(s, [f1, f2])], mode := "bbox",
                threshold := t } : NodeRegistry).resolve_id f3).1 = s ++ "_3"
      rw [resolve_id_single t [f1, f2] f3 s h3 hs, hfind3]
      show s ++ "_" ++ toString (2 + 1) = s ++ "_3"
      rw [String.append_assoc]
      rfl

/-- Witness for `C4_amended`: concrete foci exercising all three
branches — `w2` near `w1` by centroid only, `g2` overlapping `w1` by
grid only, `d2` far and disjoint (suffix `_2`), `d3` far from both
(suffix `_3`). -/
theorem C4_amended_witness :
    (("id" : String) ≠ "") ∧
    (Focus.bbox_match
        { description := "n", suggested_id := some "id", bbox := some [10, 10, 30, 30] }
        { description := "m", suggested_id := some "id", bbox := some [0, 0, 20, 20] } 150 = true) ∧
    ((((freshReg 150).resolve_id
        { description := "m", suggested_id := some "id", bbox := some [0, 0, 20, 20] }).2).resolve_id
        { description := "n", suggested_id := some "id", bbox := some [10, 10, 30, 30] }).1 = "id" := by
  have h := C4_amended "id" 150
      { description := "m", suggested_id := some "id", bbox := some [0, 0, 20, 20] }
      { description := "n", suggested_id := some "id", bbox := some [10, 10, 30, 30] }
      { description := "n", suggested_id := some "id", bbox := some [10, 10, 30, 30] }
      (by decide) rfl rfl rfl
  exact ⟨by decide, by decide, h.2.1 (by decide)⟩

end Graphsight

namespace Graphsight

/-- `models.py` `IncomingConnection`: visual observation of one incoming
arrow (only its count is consumed by the engine). -/
structure IncomingConnection where
  direction : String
  style : Option String := none
  bbox : Option (List Int) := none
deriving Repr, DecidableEq

/-- `models.py` `ConnectedNode`: one outgoing edge reported by the oracle. -/
structure ConnectedNode where
  target_id : String
  description : String
  edge_label : Option String := none
  bbox : Option (List Int) := none
  grid_refs : Option (List String) := none
deriving Repr, DecidableEq

/-- `models.py` `StepInterpretation`: one node's oracle report plus
engine-injected metadata. -/
structure StepInterpretation where
  visual_observation : Option String := none
  arrow_tracing : Option String := none
  outgoing_edges : List ConnectedNode
  incoming_edges : List IncomingConnection := []
  visual_override_reason : Option String := none
  audit_confirmed_incoming : Option (List String) := none
  audit_confirmed_outgoing : Option (List String) := none
  audit_notes : Option String := none
  is_done : Bool := false
  source_id : Option String := none
  source_grid_refs : Option (List String) := none
  source_bbox : Option (List Int) := none
  validation_warnings : List String := []
deriving Repr, DecidableEq

/-- The oracle side of `strategies.base.BaseStrategy` as the engine uses
it.  Responses are arbitrary functions of a global call counter (threaded
by the engine) and of the call's arguments, which models every possible
sequence of oracle answers, including stateful ones. -/
structure BaseStrategy where
  find_initial_focus : List Focus
  interpret_step : Nat → Focus → List StepInterpretation → StepInterpretation
  audit_node : Nat → Focus → List StepInterpretation → List String → List String →
    StepInterpretation

/-- Python truthiness fallback `x or d` for an optional string (both
`None` and `""` are falsy). -/
def pyor (o : Option String) (d : String) : String :=
  match o with
  | some s => if s = "" then d else s
  | none => d

/-- Python truthiness of an optional string id (`if step.source_id:`). -/
def sourceOkId (o : Option String) : Option String :=
  match o with
  | some s => if s = "" then none else some s
  | none => none

/-- Set-insert preserving insertion order. -/
def insertUnique (xs : List String) (x : String) : List String :=
  if xs.contains x then xs else xs ++ [x]

/-- Python `set(xs)` modelled as the insertion-ordered dedup of `xs`. -/
def setOfList (xs : List String) : List String :=
  xs.foldl insertUnique []

/-- Python `set(xs) == set(ys)`: mutual membership. -/
def seteq (xs ys : List String) : Bool :=
  xs.all (fun x => ys.contains x) && ys.all (fun y => xs.contains y)

/-- Python `str.lower()` (ASCII; the ids the engine manipulates are
ASCII).  Stated over the character list so that it reduces in the
kernel. -/
def pyLower (s : String) : String :=
  String.mk (s.toList.map Char.toLower)

/-- Non-overlapping left-to-right replacement on character lists, the
semantics of Python `str.replace(old, new)`.  After a match the `skip`
counter consumes the remaining matched characters structurally.  (For
the empty `old`, Python would interleave `new` everywhere; the engine
only replaces the non-empty `"node_"` and `"_"`, and this
implementation leaves the string unchanged in that unreached case.) -/
def replaceGo (olds news : List Char) : List Char → Nat → List Char
  | [], _ => []
  | _ :: rest, k + 1 => replaceGo olds news rest k
  | c :: rest, 0 =>
    if !olds.isEmpty && olds.isPrefixOf (c :: rest) then
      news ++ replaceGo olds news rest (olds.length - 1)
    else
      c :: replaceGo olds news rest 0

/-- Python `s.replace(old, new)`. -/
def pyReplace (s old new : String) : String :=
  String.mk (replaceGo old.toList new.toList s.toList 0)

/-- Python `str.strip()`: drop leading and trailing whitespace. -/
def pyStrip (s : String) : String :=
  String.mk (((s.toList.dropWhile Char.isWhitespace).reverse.dropWhile
    Char.isWhitespace).reverse)

end Graphsight

namespace Graphsight

/-- One pop of the frontier with the Python `continue`-on-visited loop
merged in: pops (and discards) already-visited foci until an unvisited
one is found, returning it with the remaining queue.  `step_count` is
unchanged by skips, so this is the same loop. -/
def popFirstUnvisited (visited : List (Option String)) :
    List Focus → Option (Focus × List Focus)
  | [] => none
  | f :: rest =>
    if visited.contains f.suggested_id then popFirstUnvisited visited rest
    else some (f, rest)

/-- `frontier_queue.pop(-1)` for dfs (any other mode pops the head). -/
def popNext (mode : String) (visited : List (Option String)) (frontier : List Focus) :
    Option (Focus × List Focus) :=
  if pyLower mode == "dfs" then
    match popFirstUnvisited visited frontier.reverse with
    | some (f, restRev) => some (f, restRev.reverse)
    | none => none
  else
    popFirstUnvisited visited frontier

/-- The `for edge in result.outgoing_edges` loop of `_crawl`: build a
Focus from the edge, resolve it, rewrite the edge's `target_id` to the
resolved id, and enqueue the focus when unvisited.  Returns the
rewritten edges, the foci appended to the frontier (in order), and the
updated registry. -/
def processEdges (visited : List (Option String)) :
    List ConnectedNode → NodeRegistry → List ConnectedNode × List Focus × NodeRegistry
  | [], reg => ([], [], reg)
  | e :: es, reg =>
    let next_focus : Focus :=
      { description := e.description, bbox := e.bbox, grid_refs := e.grid_refs,
        suggested_id := some e.target_id }
    let r := reg.resolve_id next_focus
    let nf := { next_focus with suggested_id := some r.1 }
    let enq := if visited.contains (some r.1) then [] else [nf]
    let rest := processEdges visited es r.2
    ({ e with target_id := r.1 } :: rest.1, enq ++ rest.2.1, rest.2.2)

/-- The crawl loop of `GraphInterpreter._crawl`.  `budget` is
`30 - step_count`; each interpreted node consumes one unit, and the
loop stops when the budget is exhausted (`step_count < 30` fails) or
the frontier holds no poppable focus (frontier empties).  `calls` is
the oracle-call counter. -/
def crawlLoop (strat : BaseStrategy) (image_mode : String) :
    Nat → List StepInterpretation → List Focus → List (Option String) → NodeRegistry → Nat →
    List StepInterpretation × NodeRegistry × Nat
  | 0, hist, _, _, reg, calls => (hist, reg, calls)
  | budget + 1, hist, frontier, visited, reg, calls =>
    match popNext image_mode visited frontier with
    | none => (hist, reg, calls)
    | some (current, rest) =>
      let visited' := current.suggested_id :: visited
      let result := strat.interpret_step calls current hist
      let step0 : StepInterpretation :=
        { result with source_id := current.suggested_id,
                      source_grid_refs := current.grid_refs,
                      source_bbox := current.bbox }
      let pe := processEdges visited' step0.outgoing_edges reg
      let step1 := { step0 with outgoing_edges := pe.1 }
      crawlLoop strat image_mode budget (hist ++ [step1]) (rest ++ pe.2.1) visited'
        pe.2.2 (calls + 1)

/-- Seeding of the frontier from `find_initial_focus`: each start focus
is resolved and its `suggested_id` overwritten with the unique id. -/
def seedFrontier : List Focus → NodeRegistry → List Focus × NodeRegistry
  | [], reg => ([], reg)
  | f :: fs, reg =>
    let r := reg.resolve_id f
    let rest := seedFrontier fs r.2
    ({ f with suggested_id := some r.1 } :: rest.1, rest.2)

/-- `GraphInterpreter._crawl`: seed, then loop with the hard ceiling 30. -/
def crawl (strat : BaseStrategy) (traversal_mode : String) (reg : NodeRegistry) (calls : Nat) :
    List StepInterpretation × NodeRegistry × Nat :=
  let seeded := seedFrontier strat.find_initial_focus reg
  crawlLoop strat traversal_mode 30 [] seeded.1 [] seeded.2 calls

end Graphsight

namespace Graphsight

/-- The edge-selection loop shared by `_run_initial_audit` and the
forward-patching block of `_execute_fix_batch`: keep an edge iff its
target is still in the remaining confirmed set, consuming the target.
Returns the kept edges and the leftover confirmed targets. -/
def selectConfirmedEdges : List ConnectedNode → List String → List ConnectedNode × List String
  | [], rem => ([], rem)
  | e :: es, rem =>
    if rem.contains e.target_id then
      let r := selectConfirmedEdges es (rem.erase e.target_id)
      (e :: r.1, r.2)
    else
      selectConfirmedEdges es rem

/-- The full outgoing-edge rewrite against an audit-confirmed target
list (the identical block in `_run_initial_audit`, tag "(Audit Added)",
and `_execute_fix_batch`, tag "(Fix Added)"): filter existing edges,
then append a fresh tagged edge per unmatched confirmed target. -/
def auditRewrite (edges : List ConnectedNode) (confirmed : List String) (tag : String) :
    List ConnectedNode :=
  let sel := selectConfirmedEdges edges (setOfList confirmed)
  sel.1 ++ sel.2.map (fun t => { target_id := t, description := tag, edge_label := none })

/-- `GraphInterpreter._run_initial_audit`, iterating over the evolving
history (`done ++ step :: todo` is the live `step_history` the oracle
sees at each call). -/
def initialAuditLoop (strat : BaseStrategy) :
    List StepInterpretation → List StepInterpretation → Nat → List StepInterpretation × Nat
  | done, [], calls => (done, calls)
  | done, step :: todo, calls =>
    let hist := done ++ step :: todo
    let proposed_out := step.outgoing_edges.map (fun e => e.target_id)
    let reconstruct_focus : Focus :=
      { description := pyor step.visual_observation "Audit target",
        suggested_id := step.source_id, bbox := step.source_bbox,
        grid_refs := step.source_grid_refs }
    let audit_result := strat.audit_node calls reconstruct_focus hist [] proposed_out
    let step' :=
      match audit_result.audit_confirmed_outgoing with
      | some conf =>
        { step with outgoing_edges := auditRewrite step.outgoing_edges conf "(Audit Added)",
                    audit_confirmed_outgoing := some conf,
                    audit_notes := audit_result.audit_notes }
      | none => step
    initialAuditLoop strat (done ++ [step']) todo (calls + 1)

/-- `GraphInterpreter._run_initial_audit`. -/
def run_initial_audit (strat : BaseStrategy) (hist : List StepInterpretation) (calls : Nat) :
    List StepInterpretation × Nat :=
  initialAuditLoop strat [] hist calls

/-- In/out adjacency sets of one `graph_map` entry. -/
structure InOut where
  inc : List String
  out : List String
deriving Repr, DecidableEq

/-- `graph_map[k] = {"in": set(), "out": set()}` when absent. -/
def gmAddKey (m : List (String × InOut)) (k : String) : List (String × InOut) :=
  if m.any (fun p => p.1 == k) then m else m ++ [(k, ⟨[], []⟩)]

/-- `graph_map[k]["out"].add(v)`. -/
def gmAddOut (m : List (String × InOut)) (k v : String) : List (String × InOut) :=
  m.map (fun p => if p.1 == k then (p.1, ⟨p.2.inc, insertUnique p.2.out v⟩) else p)

/-- `graph_map[k]["in"].add(v)`. -/
def gmAddInc (m : List (String × InOut)) (k v : String) : List (String × InOut) :=
  m.map (fun p => if p.1 == k then (p.1, ⟨insertUnique p.2.inc v, p.2.out⟩) else p)

/-- `graph_map.get(k, {}).get(...)` with empty-set defaults. -/
def gmGet (m : List (String × InOut)) (k : String) : InOut :=
  match m.find? (fun p => p.1 == k) with
  | some p => p.2
  | none => ⟨[], []⟩

/-- Section A of `GraphInterpreter._find_inconsistencies`: the logical
adjacency derived purely from the current edge lists. -/
def buildGraphMap (hist : List StepInterpretation) : List (String × InOut) :=
  let m0 := hist.foldl (fun m step =>
    match sourceOkId step.source_id with
    | some s => gmAddKey m s
    | none => m) []
  hist.foldl (fun m step =>
    match sourceOkId step.source_id with
    | none => m
    | some src =>
      step.outgoing_edges.foldl (fun m e =>
        gmAddInc (gmAddKey (gmAddOut m src e.target_id) e.target_id) e.target_id src) m) m0

/-- `engine.py` `AuditTask` (the `step` field is `hist[index]`). -/
structure AuditTask where
  index : Nat
  proposed_in : List String
  proposed_out : List String
  reasons : List String
deriving Repr, DecidableEq

/-- Section B of `_find_inconsistencies`: flag every step whose logical
adjacency disagrees with its audited (or raw observed) adjacency. -/
def findTasksAux (m : List (String × InOut)) : Nat → List StepInterpretation → List AuditTask
  | _, [] => []
  | i, step :: rest =>
    let tail := findTasksAux m (i + 1) rest
    match sourceOkId step.source_id with
    | none => tail
    | some node_id =>
      let logic_in := (gmGet m node_id).inc
      let logic_out := (gmGet m node_id).out
      let reasons_in :=
        match step.audit_confirmed_incoming with
        | some vis =>
          if !seteq logic_in vis then
            ["Incoming Logic(" ++ toString logic_in.length ++ ") != Confirmed(" ++
              toString (setOfList vis).length ++ ")"]
          else []
        | none =>
          if logic_in.length ≠ step.incoming_edges.length then
            ["Incoming Logic(" ++ toString logic_in.length ++ ") != VisualCount(" ++
              toString step.incoming_edges.length ++ ")"]
          else []
      let current_out := step.outgoing_edges.map (fun e => e.target_id)
      let reasons :=
        reasons_in ++ (if !seteq logic_out current_out then ["Outgoing Sync Error"] else [])
      if reasons.isEmpty then tail
      else { index := i, proposed_in := logic_in, proposed_out := logic_out,
             reasons := reasons } :: tail

/-- `GraphInterpreter._find_inconsistencies`. -/
def findInconsistencies (hist : List StepInterpretation) : List AuditTask :=
  findTasksAux (buildGraphMap hist) 0 hist

end Graphsight

namespace Graphsight

/-- The id normalisation of `_find_matching_node`:
`s.lower().replace("node_", "").replace("_", " ").strip()`. -/
def normalize_id (s : String) : String :=
  pyStrip (pyReplace (pyReplace (pyLower s) "node_" "") "_" " ")

/-- Python `needle in hay` on strings (true for the empty needle). -/
def containsSubstr (hay needle : String) : Bool :=
  let hs := hay.toList
  let ns := needle.toList
  (List.range (hs.length + 1)).any (fun i => ns.isPrefixOf (hs.drop i))

/-- `GraphInterpreter._find_matching_node`, returning the index of the
matched step.  Cascade: exact id, then normalized text, then (only when
both normalized strings have length at least 4) bidirectional substring
containment.  An empty (falsy) `target_id` matches nothing. -/
def find_matching_node (target_id : String) (history : List StepInterpretation) : Option Nat :=
  if target_id = "" then none
  else
    let target_clean := normalize_id target_id
    match history.findIdx? (fun st => st.source_id == some target_id) with
    | some i => some i
    | none =>
      match history.findIdx? (fun st =>
          match sourceOkId st.source_id with
          | some s => normalize_id s == target_clean
          | none => false) with
      | some i => some i
      | none =>
        if 4 ≤ target_clean.length then
          history.findIdx? (fun st =>
            match sourceOkId st.source_id with
            | some s =>
              let src_clean := normalize_id s
              4 ≤ src_clean.length &&
                (containsSubstr src_clean target_clean || containsSubstr target_clean src_clean)
            | none => false)
        else none

/-- One `src_id_raw` of the reverse-patching loop in
`_execute_fix_batch` (step 4).  `node_id` is the flagged node's
`source_id`; the engine only reaches this point with a present id
(tasks are created only for truthy source ids), and with `None` the
Python `ConnectedNode(target_id=None, ...)` construction would raise,
so the `none` case is modelled as a no-op. -/
def reversePatchOne (node_id : Option String) (hist : List StepInterpretation)
    (src_id_raw : String) (changes : Bool) : List StepInterpretation × Bool :=
  match node_id with
  | none => (hist, changes)
  | some nid =>
    match find_matching_node src_id_raw hist with
    | some i =>
      match hist.get? i with
      | none => (hist, changes)
      | some ms =>
        let already_connected := ms.outgoing_edges.any (fun e => e.target_id == nid)
        if already_connected then (hist, changes)
        else
          let ms := { ms with outgoing_edges := ms.outgoing_edges ++
              [({ target_id := nid, description := "(Reverse Patched)",
                  edge_label := none } : ConnectedNode)] }
          let ms :=
            match ms.audit_confirmed_outgoing with
            | some aco =>
              if aco.contains nid then ms
              else { ms with audit_confirmed_outgoing := some (aco ++ [nid]) }
            | none => ms
          (hist.set i ms, true)
    | none =>
      let new_step : StepInterpretation :=
        { source_id := some src_id_raw,
          visual_observation := some "Discovered during Audit (Reverse Patch)",
          outgoing_edges :=
            [{ target_id := nid, description := "(Reverse Patched)", edge_label := none }],
          incoming_edges := [],
          is_done := true }
      (hist ++ [new_step], true)

/-- The whole reverse-patching loop over `audit_confirmed_incoming`. -/
def reversePatchAll (node_id : Option String) :
    List StepInterpretation → List String → Bool → List StepInterpretation × Bool
  | hist, [], changes => (hist, changes)
  | hist, r :: rs, changes =>
    let p := reversePatchOne node_id hist r changes
    reversePatchAll node_id p.1 rs p.2

/-- One task of `GraphInterpreter._execute_fix_batch`: re-audit,
metadata update detection, forward patching, reverse patching. -/
def executeFixTask (strat : BaseStrategy) (hist : List StepInterpretation) (task : AuditTask)
    (changes : Bool) (calls : Nat) : List StepInterpretation × Bool × Nat :=
  match hist.get? task.index with
  | none => (hist, changes, calls)
  | some step =>
    let node_id := step.source_id
    let reconstruct_focus : Focus :=
      { description := pyor step.visual_observation "Audit",
        suggested_id := node_id, bbox := step.source_bbox,
        grid_refs := step.source_grid_refs }
    let audit_result :=
      strat.audit_node calls reconstruct_focus hist task.proposed_in task.proposed_out
    let calls := calls + 1
    let prev_in := step.audit_confirmed_incoming
    let prev_out := step.audit_confirmed_outgoing
    let step :=
      { step with audit_confirmed_incoming := audit_result.audit_confirmed_incoming,
                  audit_confirmed_outgoing := audit_result.audit_confirmed_outgoing,
                  audit_notes := audit_result.audit_notes }
    let changes :=
      if !seteq (prev_in.getD []) (step.audit_confirmed_incoming.getD []) then true else changes
    let changes :=
      if !seteq (prev_out.getD []) (step.audit_confirmed_outgoing.getD []) then true else changes
    let fwd :=
      match audit_result.audit_confirmed_outgoing with
      | some conf =>
        let sel := selectConfirmedEdges step.outgoing_edges (setOfList conf)
        let removed := step.outgoing_edges.length ≠ sel.1.length
        let added := sel.2 ≠ []
        ({ step with outgoing_edges :=
             sel.1 ++ sel.2.map (fun t =>
               ({ target_id := t, description := "(Fix Added)",
                  edge_label := none } : ConnectedNode)) },
         if removed ∨ added then true else changes)
      | none => (step, changes)
    let hist := hist.set task.index fwd.1
    match audit_result.audit_confirmed_incoming with
    | some incs =>
      let rp := reversePatchAll node_id hist incs fwd.2
      (rp.1, rp.2, calls)
    | none => (hist, fwd.2, calls)

/-- `GraphInterpreter._execute_fix_batch`. -/
def executeFixBatch (strat : BaseStrategy) (hist : List StepInterpretation)
    (tasks : List AuditTask) (calls : Nat) : List StepInterpretation × Bool × Nat :=
  tasks.foldl (fun acc task => executeFixTask strat acc.1 task acc.2.1 acc.2.2)
    (hist, false, calls)

end Graphsight

namespace Graphsight

/-- Why the consistency loop stopped: no inconsistency tasks
(spec `CONVERGED`), a fix batch with zero changes (spec `EXHAUSTED`),
or `range(max_attempts)` running out. -/
inductive LoopOutcome
  | converged
  | exhausted
  | bound_reached
deriving Repr, DecidableEq

/-- Result of the consistency loop. -/
structure LoopResult where
  hist : List StepInterpretation
  iterations : Nat
  calls : Nat
  outcome : LoopOutcome
deriving Repr, DecidableEq

/-- `GraphInterpreter._run_consistency_loop`, with the remaining
attempts of `for attempt in range(max_attempts)` as fuel.
`iterations` counts executed fix batches. -/
def consistencyLoopAux (strat : BaseStrategy) :
    Nat → List StepInterpretation → Nat → Nat → LoopResult
  | 0, hist, iters, calls => ⟨hist, iters, calls, .bound_reached⟩
  | n + 1, hist, iters, calls =>
    let tasks := findInconsistencies hist
    if tasks.isEmpty then ⟨hist, iters, calls, .converged⟩
    else
      let fix := executeFixBatch strat hist tasks calls
      if !fix.2.1 then ⟨fix.1, iters + 1, fix.2.2, .exhausted⟩
      else consistencyLoopAux strat n fix.1 (iters + 1) fix.2.2

/-- `GraphInterpreter._run_consistency_loop` as called by `process`
(`max_attempts=10`). -/
def run_consistency_loop (strat : BaseStrategy) (hist : List StepInterpretation)
    (calls : Nat) : LoopResult :=
  consistencyLoopAux strat 10 hist 0 calls

/-- `GraphInterpreter.process` restricted to the graph-state pipeline
(phases 1-3; grid overlay, token accounting and the final text
synthesis are out of scope): crawl with a fresh registry at spatial
threshold 150, then initial audit, then the consistency loop. -/
def processEngine (strat : BaseStrategy) (traversal_mode : String) :
    LoopResult × NodeRegistry :=
  let reg0 : NodeRegistry := { nodes := [], mode := "bbox", threshold := 150 }
  let c := crawl strat traversal_mode reg0 0
  let ia := run_initial_audit strat c.1 c.2.2
  (run_consistency_loop strat ia.1 ia.2, c.2.1)

/-- The node ids present in a step history (the node set of the final
graph: one node per step's `source_id`). -/
def nodeIds (hist : List StepInterpretation) : List String :=
  hist.filterMap (fun st => st.source_id)

end Graphsight

namespace Graphsight

/-- An empty oracle report. -/
def blankStep : StepInterpretation := { outgoing_edges := [] }

/-- An oracle whose initial audit confirms an outgoing target "Ghost"
that no crawled or synthesized node ever carries as its id. -/
def ghostStrategy : BaseStrategy :=
  { find_initial_focus := [{ description := "start", suggested_id := some "A",
                             grid_refs := some ["A1"] }],
    interpret_step := fun _ _ _ => blankStep,
    audit_node := fun _ _ _ _ _ =>
      { blankStep with audit_confirmed_outgoing := some ["Ghost"] } }

/-- Claim C1 (counterexample): a full engine run (crawl, initial audit,
consistency loop to convergence) can end with an edge whose target id
is not the id of any node in the result: the initial audit adds an edge
to a confirmed target for which no step exists, no phase synthesizes a
node for confirmed *outgoing* targets, and the target, having no step
of its own, is never flagged by the consistency check. -/
theorem C1_counterexample :
    (processEngine ghostStrategy "dfs").1.outcome = LoopOutcome.converged ∧
    (∃ step ∈ (processEngine ghostStrategy "dfs").1.hist,
      ∃ e ∈ step.outgoing_edges, e.target_id ∉ nodeIds (processEngine ghostStrategy "dfs").1.hist) := by
  constructor
  · rfl
  · decide

/-- Claim C1 (amended): after a full run, every recorded edge's *source*
endpoint references a node of the result — each edge lives in the
`outgoing_edges` of some step, and that step's `source_id` is by
construction among the node ids of the result.  (Edge *targets* are not
guaranteed to exist; see the counterexample.) -/
theorem C1_amended (strat : BaseStrategy) (traversal_mode : String)
    (step : StepInterpretation) (hmem : step ∈ (processEngine strat traversal_mode).1.hist)
    (s : String) (hsid : step.source_id = some s) :
    s ∈ nodeIds (processEngine strat traversal_mode).1.hist :=
  List.mem_filterMap.mpr ⟨step, hmem, hsid⟩

/-- The single step produced by a ghost-strategy run. -/
def ghostStep : StepInterpretation :=
  { outgoing_edges := [{ target_id := "Ghost", description := "(Audit Added)",
                         edge_label := none }],
    audit_confirmed_outgoing := some ["Ghost"],
    source_id := some "A",
    source_grid_refs := some ["A1"] }

/-- Witness for `C1_amended` on the ghost-strategy run. -/
theorem C1_amended_witness :
    ghostStep ∈ (processEngine ghostStrategy "dfs").1.hist ∧
    ghostStep.source_id = some "A" ∧
    "A" ∈ nodeIds (processEngine ghostStrategy "dfs").1.hist :=
  ⟨by decide, rfl, C1_amended ghostStrategy "dfs" ghostStep (by decide) "A" rfl⟩

end Graphsight

namespace Graphsight

/-- The consistency loop runs at most its remaining-attempt fuel. -/
theorem loopAux_iterations_le (strat : BaseStrategy) (n : Nat) :
    ∀ (hist : List StepInterpretation) (iters calls : Nat),
      (consistencyLoopAux strat n hist iters calls).iterations ≤ iters + n := by
  induction n with
  | zero => intro hist iters calls; simp [consistencyLoopAux]
  | succ n ih =>
    intro hist iters calls
    simp only [consistencyLoopAux]
    split
    · simp
    · split
      · simp
      · exact le_trans (ih _ (iters + 1) _) (by omega)

/-- If the loop reports convergence, the final history really has no
inconsistency tasks. -/
theorem loopAux_converged_sound (strat : BaseStrategy) (n : Nat) :
    ∀ (hist : List StepInterpretation) (iters calls : Nat),
      (consistencyLoopAux strat n hist iters calls).outcome = LoopOutcome.converged →
      findInconsistencies (consistencyLoopAux strat n hist iters calls).hist = [] := by
  induction n with
  | zero => intro hist iters calls h; simp [consistencyLoopAux] at h
  | succ n ih =>
    intro hist iters calls
    simp only [consistencyLoopAux]
    split
    · intro _
      simpa [List.isEmpty_iff] using (by assumption : (findInconsistencies hist).isEmpty = true)
    · split
      · intro h; simp at h
      · exact ih _ _ _

/-- Claim C2: the consistency loop terminates for every oracle answer
sequence within its iteration bound (10 in `process`), stops as
converged exactly when an iteration finds zero inconsistency tasks (the
final history then has none), and stops early as exhausted when a fix
batch produces zero structural or confirmation changes even though
tasks remain. -/
theorem C2_theorem (strat : BaseStrategy) (hist : List StepInterpretation)
    (calls n iters : Nat) :
    ((run_consistency_loop strat hist calls).iterations ≤ 10) ∧
    ((consistencyLoopAux strat n hist iters calls).iterations ≤ iters + n) ∧
    ((consistencyLoopAux strat n hist iters calls).outcome = LoopOutcome.converged →
      findInconsistencies (consistencyLoopAux strat n hist iters calls).hist = []) ∧
    (findInconsistencies hist ≠ [] →
      (executeFixBatch strat hist (findInconsistencies hist) calls).2.1 = false →
      1 ≤ n →
      (consistencyLoopAux strat n hist iters calls).outcome = LoopOutcome.exhausted) := by
  refine ⟨?_, loopAux_iterations_le strat n hist iters calls,
          loopAux_converged_sound strat n hist iters calls, ?_⟩
  · simpa [run_consistency_loop] using loopAux_iterations_le strat 10 hist 0 calls
  · intro htasks hnochange hn
    match n, hn with
    | n + 1, _ =>
      simp only [consistencyLoopAux]
      rw [if_neg (by simpa [List.isEmpty_iff] using htasks)]
      simp [hnochange]

/-- An oracle that can never change anything: every audit answer is
blank.  A single step that observed one incoming arrow but has no
logical in-edge stays flagged, so the loop must stop as exhausted. -/
def stubbornStrategy : BaseStrategy :=
  { find_initial_focus := [],
    interpret_step := fun _ _ _ => blankStep,
    audit_node := fun _ _ _ _ _ => blankStep }

/-- A step whose observed incoming count (1) disagrees with its logical
in-degree (0). -/
def lonelyStep : StepInterpretation :=
  { outgoing_edges := [], incoming_edges := [{ direction := "Top" }],
    source_id := some "A" }

/-- Witness for `C2_theorem`: on the stubborn oracle the hypotheses of
the early-stop clause hold and the loop reports exhaustion. -/
theorem C2_theorem_witness :
    (findInconsistencies [lonelyStep] ≠ []) ∧
    ((executeFixBatch stubbornStrategy [lonelyStep]
        (findInconsistencies [lonelyStep]) 0).2.1 = false) ∧
    ((1 : Nat) ≤ 10) ∧
    (consistencyLoopAux stubbornStrategy 10 [lonelyStep] 0 0).outcome =
      LoopOutcome.exhausted :=
  ⟨by decide, by decide, by decide,
   (C2_theorem stubbornStrategy [lonelyStep] 0 10 0).2.2.2 (by decide) (by decide) (by decide)⟩

end Graphsight

namespace Graphsight

theorem insertUnique_mem (acc : List String) (y x : String) :
    x ∈ insertUnique acc y ↔ x ∈ acc ∨ x = y := by
  by_cases h : y ∈ acc
  · simp only [insertUnique]
    rw [if_pos (by simpa using h)]
    constructor
    · exact fun hx => Or.inl hx
    · rintro (hx | rfl) <;> [exact hx; exact h]
  · simp only [insertUnique]
    rw [if_neg (by simpa using h)]
    simp

theorem mem_foldl_insertUnique (xs : List String) :
    ∀ (acc : List String) (x : String),
      x ∈ xs.foldl insertUnique acc ↔ x ∈ acc ∨ x ∈ xs := by
  induction xs with
  | nil => simp
  | cons y ys ih =>
    intro acc x
    rw [List.foldl_cons, ih, insertUnique_mem]
    simp only [List.mem_cons]
    tauto

theorem setOfList_mem (xs : List String) (x : String) :
    x ∈ setOfList xs ↔ x ∈ xs := by
  rw [setOfList, mem_foldl_insertUnique]; simp

/-- Conservation of the edge-selection loop: the targets of the kept
edges together with the leftover confirmed ids are a permutation of the
confirmed set it started from. -/
theorem select_perm (edges : List ConnectedNode) :
    ∀ (rem : List String),
      List.Perm
        ((selectConfirmedEdges edges rem).1.map (fun e => e.target_id) ++
          (selectConfirmedEdges edges rem).2)
        rem := by
  induction edges with
  | nil => intro rem; simp [selectConfirmedEdges]
  | cons e es ih =>
    intro rem
    by_cases h : e.target_id ∈ rem
    · simp only [selectConfirmedEdges]
      rw [if_pos (by simpa using h)]
      simp only [List.map_cons, List.cons_append]
      exact ((ih (rem.erase e.target_id)).cons e.target_id).trans
        (List.perm_cons_erase h).symm
    · simp only [selectConfirmedEdges]
      rw [if_neg (by simpa using h)]
      exact ih rem

/-- Every kept edge comes from the input list and has its target in the
initial remaining set. -/
theorem select_kept (edges : List ConnectedNode) :
    ∀ (rem : List String) (e : ConnectedNode),
      e ∈ (selectConfirmedEdges edges rem).1 → e ∈ edges ∧ e.target_id ∈ rem := by
  induction edges with
  | nil => intro rem e h; simp [selectConfirmedEdges] at h
  | cons e0 es ih =>
    intro rem e h
    by_cases h0 : e0.target_id ∈ rem
    · simp only [selectConfirmedEdges] at h
      rw [if_pos (by simpa using h0)] at h
      rcases List.mem_cons.mp h with rfl | h
      · exact ⟨List.mem_cons_self _ _, h0⟩
      · have := ih _ e h
        exact ⟨List.mem_cons_of_mem _ this.1,
          List.erase_subset _ _ this.2⟩
    · simp only [selectConfirmedEdges] at h
      rw [if_neg (by simpa using h0)] at h
      have := ih rem e h
      exact ⟨List.mem_cons_of_mem _ this.1, this.2⟩

/-- When the input targets are duplicate-free, every edge whose target
is in the remaining set is kept. -/
theorem select_keeps (edges : List ConnectedNode) :
    ∀ (rem : List String), (edges.map (fun e => e.target_id)).Nodup →
      ∀ e ∈ edges, e.target_id ∈ rem → e ∈ (selectConfirmedEdges edges rem).1 := by
  induction edges with
  | nil => intro rem _ e h; simp at h
  | cons e0 es ih =>
    intro rem hnd e hmem htgt
    have hnd' : (es.map (fun e => e.target_id)).Nodup := (List.nodup_cons.mp hnd).2
    rcases List.mem_cons.mp hmem with rfl | hmem
    · simp only [selectConfirmedEdges]
      rw [if_pos (by simpa using htgt)]
      exact List.mem_cons_self _ _
    · by_cases h0 : e0.target_id ∈ rem
      · simp only [selectConfirmedEdges]
        rw [if_pos (by simpa using h0)]
        have hne : e.target_id ≠ e0.target_id := by
          intro hEq
          have : e0.target_id ∈ es.map (fun e => e.target_id) := by
            rw [← hEq]
            exact List.mem_map_of_mem _ hmem
          exact (List.nodup_cons.mp hnd).1 this
        exact List.mem_cons_of_mem _
          (ih _ hnd' e hmem (List.mem_erase_of_ne hne |>.mpr htgt))
      · simp only [selectConfirmedEdges]
        rw [if_neg (by simpa using h0)]
        exact ih rem hnd' e hmem htgt

/-- A remaining confirmed id that never occurs among the input targets
survives to the leftover list. -/
theorem select_leftover (edges : List ConnectedNode) :
    ∀ (rem : List String) (t : String), t ∈ rem →
      t ∉ edges.map (fun e => e.target_id) → t ∈ (selectConfirmedEdges edges rem).2 := by
  induction edges with
  | nil => intro rem t ht _; simpa [selectConfirmedEdges] using ht
  | cons e0 es ih =>
    intro rem t ht hnt
    have hne : t ≠ e0.target_id := by
      intro hEq; exact hnt (by simp [hEq])
    have hnt' : t ∉ es.map (fun e => e.target_id) := by
      intro hc; exact hnt (by simp [hc])
    by_cases h0 : e0.target_id ∈ rem
    · simp only [selectConfirmedEdges]
      rw [if_pos (by simpa using h0)]
      exact ih _ t ((List.mem_erase_of_ne hne).mpr ht) hnt'
    · simp only [selectConfirmedEdges]
      rw [if_neg (by simpa using h0)]
      exact ih rem t ht hnt'

end Graphsight

namespace Graphsight

/-- Claim C7: the outgoing-edge rewrite used by the initial audit
(`initialAuditLoop`, tag "(Audit Added)") and by forward patching
(`executeFixTask`, tag "(Fix Added)") rewrites the edge list to exactly
the audit-confirmed target set: (i) the rewritten targets are precisely
the confirmed ids; (ii) every previously recorded edge whose target is
not confirmed is removed — in particular a crawl-claimed edge to C is
removed when the node's own audit does not confirm C; (iii) for
duplicate-free edge targets, every confirmed existing edge is kept;
(iv) every confirmed target missing from the current edges is added as
a fresh tagged edge. -/
theorem C7_theorem (edges : List ConnectedNode) (conf : List String) (tag : String) :
    (∀ t, t ∈ (auditRewrite edges conf tag).map (fun e => e.target_id) ↔ t ∈ conf) ∧
    (∀ e ∈ edges, e.target_id ∉ conf → e ∉ auditRewrite edges conf tag) ∧
    ((edges.map (fun e => e.target_id)).Nodup →
      ∀ e ∈ edges, e.target_id ∈ conf → e ∈ auditRewrite edges conf tag) ∧
    (∀ t ∈ conf, t ∉ edges.map (fun e => e.target_id) →
      ({ target_id := t, description := tag, edge_label := none } : ConnectedNode) ∈
        auditRewrite edges conf tag) := by
  have hperm := select_perm edges (setOfList conf)
  have htargets : (auditRewrite edges conf tag).map (fun e => e.target_id) =
      (selectConfirmedEdges edges (setOfList conf)).1.map (fun e => e.target_id) ++
        (selectConfirmedEdges edges (setOfList conf)).2 := by
    simp only [auditRewrite, List.map_append, List.map_map]
    have hid : ((fun (e : ConnectedNode) => e.target_id) ∘ fun t =>
        ({ target_id := t, description := tag, edge_label := none } : ConnectedNode)) = id := rfl
    rw [hid, List.map_id]
  refine ⟨?_, ?_, ?_, ?_⟩
  · intro t
    rw [htargets, hperm.mem_iff, setOfList_mem]
  · intro e hmem hnc hres
    rcases List.mem_append.mp hres with hkept | hadded
    · have := (select_kept edges _ e hkept).2
      exact hnc ((setOfList_mem conf e.target_id).mp this)
    · rcases List.mem_map.mp hadded with ⟨t, htmem, hEq⟩
      have htid : e.target_id = t := by rw [← hEq]
      have hmem2 : e.target_id ∈ (selectConfirmedEdges edges (setOfList conf)).2 := by
        rw [htid]; exact htmem
      have : e.target_id ∈ setOfList conf :=
        hperm.subset (List.mem_append_right _ hmem2)
      exact hnc ((setOfList_mem conf e.target_id).mp this)
  · intro hnd e hmem hc
    exact List.mem_append_left _
      (select_keeps edges _ hnd e hmem ((setOfList_mem conf e.target_id).mpr hc))
  · intro t hc hnt
    have := select_leftover edges (setOfList conf) t ((setOfList_mem conf t).mpr hc) hnt
    exact List.mem_append_right _ (List.mem_map_of_mem _ this)

/-- The crawl-claimed edge A→C of the hallucinated-edge scenario. -/
def edgeToC : ConnectedNode := { target_id := "C", description := "crawl", edge_label := none }

/-- Witness for `C7_theorem`: A's audit confirms only B, so the crawl
edge to C is removed and a tagged edge to B added. -/
theorem C7_theorem_witness :
    (("C" : String) ∉ (["B"] : List String)) ∧
    edgeToC ∉ auditRewrite [edgeToC] ["B"] "(Audit Added)" ∧
    ({ target_id := "B", description := "(Audit Added)", edge_label := none } : ConnectedNode) ∈
      auditRewrite [edgeToC] ["B"] "(Audit Added)" := by
  refine ⟨by decide, ?_, ?_⟩
  · exact (C7_theorem [edgeToC] ["B"] "(Audit Added)").2.1 edgeToC (by decide) (by decide)
  · exact (C7_theorem [edgeToC] ["B"] "(Audit Added)").2.2.2 "B" (by decide) (by decide)

end Graphsight

namespace Graphsight

theorem findIdx?_some_sound {α : Type} (p : α → Bool) :
    ∀ (l : List α) (i : Nat), l.findIdx? p = some i →
      ∃ x, l.get? i = some x ∧ p x = true := by
  intro l
  induction l with
  | nil => intro i h; simp at h
  | cons x xs ih =>
    intro i h
    rw [List.findIdx?_cons] at h
    by_cases hp : p x = true
    · rw [if_pos hp] at h
      cases h
      exact ⟨x, rfl, hp⟩
    · rw [if_neg hp, List.findIdx?_succ] at h
      rcases Option.map_eq_some'.mp h with ⟨j, hj, rfl⟩
      rcases ih j hj with ⟨y, hy, hpy⟩
      exact ⟨y, by simpa using hy, hpy⟩

theorem findIdx?_some_of_exists {α : Type} (p : α → Bool) :
    ∀ (l : List α), (∃ x ∈ l, p x = true) → ∃ i, l.findIdx? p = some i := by
  intro l
  induction l with
  | nil => rintro ⟨x, hx, _⟩; simp at hx
  | cons y ys ih =>
    rintro ⟨x, hx, hpx⟩
    rw [List.mem_cons] at hx
    by_cases hp : p y = true
    · exact ⟨0, by rw [List.findIdx?_cons, if_pos hp]⟩
    · rcases hx with rfl | hx
      · exact absurd hpx hp
      · rcases ih ⟨x, hx, hpx⟩ with ⟨j, hj⟩
        exact ⟨j + 1, by rw [List.findIdx?_cons, if_neg hp, List.findIdx?_succ, hj]; rfl⟩

end Graphsight

namespace Graphsight

/-- The placeholder step synthesized for an unmatched confirmed source. -/
def placeholderStep (src_id_raw nid : String) : StepInterpretation :=
  { source_id := some src_id_raw,
    visual_observation := some "Discovered during Audit (Reverse Patch)",
    outgoing_edges :=
      [{ target_id := nid, description := "(Reverse Patched)", edge_label := none }],
    incoming_edges := [],
    is_done := true }

/-- The edge object appended by a reverse patch. -/
def reverseEdge (nid : String) : ConnectedNode :=
  { target_id := nid, description := "(Reverse Patched)", edge_label := none }

/-- The cache update of the reverse patch: extend a present
`audit_confirmed_outgoing` that lacks the flagged id. -/
def patchCache (ms : StepInterpretation) (nid : String) : StepInterpretation :=
  match ms.audit_confirmed_outgoing with
  | some aco =>
    if aco.contains nid then ms
    else { ms with audit_confirmed_outgoing := some (aco ++ [nid]) }
  | none => ms

/-- Claim C6: reverse patching.  (a) any match of the fuzzy cascade is an
exact id match, a normalized-text match, or a substring match gated by
both normalized lengths being at least 4; (b) an exact id match is always
found when one exists; (c) if a source is found and the edge to the
flagged node is missing, the edge is force-added to the source and its
cached `audit_confirmed_outgoing`, when present and lacking the id, is
extended; (d) if no source is found — including when the identifier is
the empty string — a placeholder step with the oracle identifier as its
id and a single outgoing edge to the flagged node is appended (the edge
is emitted, not dropped). -/
theorem C6_theorem (h : List StepInterpretation) (r nid : String) (ch : Bool) :
    (∀ i, find_matching_node r h = some i →
      ∃ st, h.get? i = some st ∧
        (st.source_id = some r ∨
         (∃ s, sourceOkId st.source_id = some s ∧ normalize_id s = normalize_id r) ∨
         (4 ≤ (normalize_id r).length ∧ ∃ s, sourceOkId st.source_id = some s ∧
            4 ≤ (normalize_id s).length ∧
            (containsSubstr (normalize_id s) (normalize_id r) = true ∨
             containsSubstr (normalize_id r) (normalize_id s) = true)))) ∧
    (r ≠ "" → (∃ st ∈ h, st.source_id = some r) →
      ∃ i, find_matching_node r h = some i ∧
        ∃ st, h.get? i = some st ∧ st.source_id = some r) ∧
    (∀ i ms, find_matching_node r h = some i → h.get? i = some ms →
      ms.outgoing_edges.any (fun e => e.target_id == nid) = false →
      (reversePatchOne (some nid) h r ch).2 = true ∧
      ∃ ms2, (reversePatchOne (some nid) h r ch).1.get? i = some ms2 ∧
        ms2.outgoing_edges = ms.outgoing_edges ++ [reverseEdge nid] ∧
        (∀ aco, ms.audit_confirmed_outgoing = some aco → aco.contains nid = false →
          ms2.audit_confirmed_outgoing = some (aco ++ [nid]))) ∧
    (find_matching_node r h = none →
      (reversePatchOne (some nid) h r ch).1 = h ++ [placeholderStep r nid] ∧
      (reversePatchOne (some nid) h r ch).2 = true) := by
  refine ⟨?_, ?_, ?_, ?_⟩
  · -- (a) cascade soundness
    intro i hfind
    by_cases hr : r = ""
    · rw [find_matching_node, if_pos hr] at hfind; cases hfind
    · rw [find_matching_node, if_neg hr] at hfind
      dsimp only at hfind
      cases h1 : h.findIdx? (fun st => st.source_id == some r) with
      | some j =>
        rw [h1] at hfind
        dsimp only at hfind
        have hji := Option.some.inj hfind
        subst hji
        rcases findIdx?_some_sound _ h j h1 with ⟨st, hst, hp⟩
        exact ⟨st, hst, Or.inl (by simpa using hp)⟩
      | none =>
        rw [h1] at hfind
        dsimp only at hfind
        cases h2 : h.findIdx? (fun st =>
            match sourceOkId st.source_id with
            | some s => normalize_id s == normalize_id r
            | none => false) with
        | some j =>
          rw [h2] at hfind
          dsimp only at hfind
          have hji := Option.some.inj hfind
          subst hji
          rcases findIdx?_some_sound _ h j h2 with ⟨st, hst, hp⟩
          refine ⟨st, hst, Or.inr (Or.inl ?_)⟩
          cases hs : sourceOkId st.source_id with
          | some s => rw [hs] at hp; exact ⟨s, rfl, by simpa using hp⟩
          | none => rw [hs] at hp; cases hp
        | none =>
          rw [h2] at hfind
          dsimp only at hfind
          by_cases hlen : 4 ≤ (normalize_id r).length
          · rw [if_pos hlen] at hfind
            rcases findIdx?_some_sound _ h i hfind with ⟨st, hst, hp⟩
            refine ⟨st, hst, Or.inr (Or.inr ⟨hlen, ?_⟩)⟩
            cases hs : sourceOkId st.source_id with
            | some s =>
              rw [hs] at hp
              dsimp only at hp
              simp only [Bool.and_eq_true, Bool.or_eq_true, decide_eq_true_eq] at hp
              exact ⟨s, rfl, hp.1, hp.2⟩
            | none => rw [hs] at hp; cases hp
          · rw [if_neg hlen] at hfind; cases hfind
  · -- (b) exact priority
    intro hr hex
    rcases hex with ⟨st, hmem, hsid⟩
    have hexb : ∃ x ∈ h, (fun st => st.source_id == some r) x = true :=
      ⟨st, hmem, by simp [hsid]⟩
    rcases findIdx?_some_of_exists _ h hexb with ⟨i, hi⟩
    refine ⟨i, ?_, ?_⟩
    · rw [find_matching_node, if_neg hr]
      dsimp only
      rw [hi]
    · rcases findIdx?_some_sound _ h i hi with ⟨st2, hst2, hp2⟩
      exact ⟨st2, hst2, by simpa using hp2⟩
  · -- (c) force-add and cache update
    intro i ms hfind hget halready
    have hlt : i < h.length := (List.get?_eq_some.mp hget).1
    have hbody : reversePatchOne (some nid) h r ch =
        (h.set i
          (patchCache { ms with outgoing_edges := ms.outgoing_edges ++ [reverseEdge nid] } nid),
         true) := by
      simp only [reversePatchOne]
      rw [hfind]
      dsimp only
      rw [hget]
      dsimp only
      rw [halready]
      simp only [Bool.false_eq_true, if_false]
      rfl
    rw [hbody]
    refine ⟨rfl, ?_⟩
    refine ⟨_, List.get?_set_eq_of_lt _ hlt, ?_, ?_⟩
    · show (patchCache { ms with outgoing_edges :=
          ms.outgoing_edges ++ [reverseEdge nid] } nid).outgoing_edges = _
      cases haco : ms.audit_confirmed_outgoing with
      | some aco =>
        by_cases hin : nid ∈ aco
        · simp [patchCache, haco, hin]
        · simp [patchCache, haco, hin]
      | none => simp [patchCache, haco]
    · intro aco ha hc
      show (patchCache { ms with outgoing_edges :=
          ms.outgoing_edges ++ [reverseEdge nid] } nid).audit_confirmed_outgoing = _
      have hc2 : nid ∉ aco := by simpa using hc
      simp [patchCache, ha, hc2]
  · -- (d) placeholder synthesis
    intro hfind
    constructor
    · show (reversePatchOne (some nid) h r ch).1 = _
      simp only [reversePatchOne]
      rw [hfind]
      rfl
    · show (reversePatchOne (some nid) h r ch).2 = true
      simp only [reversePatchOne]
      rw [hfind]

end Graphsight

namespace Graphsight

/-- The flagged node's history for the C6 counterexample. -/
def c6FlaggedHistory : List StepInterpretation :=
  [{ outgoing_edges := [], source_id := some "B" }]

/-- Claim C6 (counterexample to the drop clause): with an empty
confirmed-incoming identifier (no identifying text), the engine does
not drop the edge — it synthesizes a placeholder node whose id is the
empty string and emits the edge from it. -/
theorem C6_counterexample :
    find_matching_node "" c6FlaggedHistory = none ∧
    (reversePatchOne (some "B") c6FlaggedHistory "" false).1 =
      c6FlaggedHistory ++ [placeholderStep "" "B"] ∧
    (∃ st ∈ (reversePatchOne (some "B") c6FlaggedHistory "" false).1,
      st.source_id = some "" ∧ ∃ e ∈ st.outgoing_edges, e.target_id = "B") := by
  refine ⟨rfl, rfl, ?_⟩
  decide

/-- A crawled source node for the C6 witness. -/
def c6SrcStep : StepInterpretation :=
  { outgoing_edges := [], source_id := some "node_Alpha" }

/-- Witness for `C6_theorem`: the exact-match tier finds "node_Alpha"
and, the edge being absent, the reverse patch force-adds it. -/
theorem C6_theorem_witness :
    find_matching_node "node_Alpha" [c6SrcStep] = some 0 ∧
    [c6SrcStep].get? 0 = some c6SrcStep ∧
    (c6SrcStep.outgoing_edges.any (fun e => e.target_id == "B") = false) ∧
    ((reversePatchOne (some "B") [c6SrcStep] "node_Alpha" false).2 = true ∧
      ∃ ms2, (reversePatchOne (some "B") [c6SrcStep] "node_Alpha" false).1.get? 0 = some ms2 ∧
        ms2.outgoing_edges = c6SrcStep.outgoing_edges ++ [reverseEdge "B"] ∧
        (∀ aco, c6SrcStep.audit_confirmed_outgoing = some aco → aco.contains "B" = false →
          ms2.audit_confirmed_outgoing = some (aco ++ ["B"]))) :=
  ⟨by decide, by decide, by decide,
   (C6_theorem [c6SrcStep] "node_Alpha" "B" false).2.2.1 0 c6SrcStep
     (by decide) (by decide) (by decide)⟩

end Graphsight

namespace Graphsight

/-- The id `resolve_id` hands out for cluster `i` of a base id: the bare
id for the first cluster, `base_i+1` for later ones. -/
def clusterName (base : String) (i : Nat) : String :=
  if i = 0 then base else base ++ "_" ++ toString (i + 1)

/-- `id` is one of the ids the registry has handed out (or would hand
out for its registered clusters). -/
def idRegistered (reg : NodeRegistry) (id : String) : Bool :=
  reg.nodes.any (fun p => (List.range p.2.length).any (fun i => id == clusterName p.1 i))

/-- Registry well-formedness maintained by the engine: distinct base
keys (a Python dict) and non-empty cluster lists (entries are created
with one focus and only appended to). -/
def regWF (reg : NodeRegistry) : Prop :=
  (reg.nodes.map Prod.fst).Nodup ∧ ∀ p ∈ reg.nodes, p.2 ≠ []

theorem idRegistered_iff (reg : NodeRegistry) (id : String) :
    idRegistered reg id = true ↔
      ∃ p ∈ reg.nodes, ∃ i, i < p.2.length ∧ id = clusterName p.1 i := by
  unfold idRegistered
  simp [List.any_eq_true, List.mem_range]

theorem lookupAssoc_some {m : List (String × List Focus)} {k : String} {v : List Focus}
    (h : lookupAssoc m k = some v) : ∃ p ∈ m, p.1 = k ∧ p.2 = v := by
  unfold lookupAssoc at h
  cases hf : m.find? (fun p => p.1 == k) with
  | none => rw [hf] at h; cases h
  | some p =>
    rw [hf] at h
    cases h
    have hmem := List.mem_of_find?_eq_some hf
    have hpred := List.find?_some hf
    exact ⟨p, hmem, by simpa using hpred, rfl⟩

theorem lookupAssoc_none {m : List (String × List Focus)} {k : String}
    (h : lookupAssoc m k = none) : ∀ p ∈ m, p.1 ≠ k := by
  intro p hp
  unfold lookupAssoc at h
  cases hf : m.find? (fun p => p.1 == k) with
  | some q => rw [hf] at h; cases h
  | none =>
    have := List.find?_eq_none.mp hf p hp
    simpa using this

/-- The base id computed at the top of `resolve_id`. -/
def resolveBase (f : Focus) : String :=
  match f.suggested_id with
  | some s => if s = "" then "node_Unknown" else s
  | none => "node_Unknown"

theorem resolve_id_lookup_none (reg : NodeRegistry) (f : Focus)
    (hlk : lookupAssoc reg.nodes (resolveBase f) = none) :
    reg.resolve_id f =
      (resolveBase f, { reg with nodes := reg.nodes ++ [(resolveBase f, [f])] }) := by
  show (match lookupAssoc reg.nodes (resolveBase f) with
    | none => (resolveBase f, { reg with nodes := reg.nodes ++ [(resolveBase f, [f])] })
    | some candidates =>
      match candidates.findIdx? (fun c => f.is_same_location_hybrid c reg.threshold) with
      | some i => (if i = 0 then resolveBase f else resolveBase f ++ "_" ++ toString (i + 1), reg)
      | none => (resolveBase f ++ "_" ++ toString (candidates.length + 1),
          { reg with nodes := updateAssoc reg.nodes (resolveBase f) (candidates ++ [f]) })) = _
  rw [hlk]

theorem resolve_id_lookup_found (reg : NodeRegistry) (f : Focus) (candidates : List Focus)
    (i : Nat) (hlk : lookupAssoc reg.nodes (resolveBase f) = some candidates)
    (hfi : candidates.findIdx? (fun c => f.is_same_location_hybrid c reg.threshold) = some i) :
    reg.resolve_id f =
      (if i = 0 then resolveBase f else resolveBase f ++ "_" ++ toString (i + 1), reg) := by
  show (match lookupAssoc reg.nodes (resolveBase f) with
    | none => (resolveBase f, { reg with nodes := reg.nodes ++ [(resolveBase f, [f])] })
    | some candidates =>
      match candidates.findIdx? (fun c => f.is_same_location_hybrid c reg.threshold) with
      | some i => (if i = 0 then resolveBase f else resolveBase f ++ "_" ++ toString (i + 1), reg)
      | none => (resolveBase f ++ "_" ++ toString (candidates.length + 1),
          { reg with nodes := updateAssoc reg.nodes (resolveBase f) (candidates ++ [f]) })) = _
  rw [hlk]
  dsimp only
  rw [hfi]

theorem resolve_id_lookup_nomatch (reg : NodeRegistry) (f : Focus) (candidates : List Focus)
    (hlk : lookupAssoc reg.nodes (resolveBase f) = some candidates)
    (hfi : candidates.findIdx? (fun c => f.is_same_location_hybrid c reg.threshold) = none) :
    reg.resolve_id f =
      (resolveBase f ++ "_" ++ toString (candidates.length + 1),
        { reg with nodes := updateAssoc reg.nodes (resolveBase f) (candidates ++ [f]) }) := by
  show (match lookupAssoc reg.nodes (resolveBase f) with
    | none => (resolveBase f, { reg with nodes := reg.nodes ++ [(resolveBase f, [f])] })
    | some candidates =>
      match candidates.findIdx? (fun c => f.is_same_location_hybrid c reg.threshold) with
      | some i => (if i = 0 then resolveBase f else resolveBase f ++ "_" ++ toString (i + 1), reg)
      | none => (resolveBase f ++ "_" ++ toString (candidates.length + 1),
          { reg with nodes := updateAssoc reg.nodes (resolveBase f) (candidates ++ [f]) })) = _
  rw [hlk]
  dsimp only
  rw [hfi]

/-- The combined `resolve_id` specification: well-formedness is
preserved, the returned id is registered in the updated registry, and
every already-registered id stays registered. -/
theorem resolve_id_spec (reg : NodeRegistry) (f : Focus) (hwf : regWF reg) :
    regWF (reg.resolve_id f).2 ∧
    idRegistered (reg.resolve_id f).2 (reg.resolve_id f).1 = true ∧
    (∀ id, idRegistered reg id = true → idRegistered (reg.resolve_id f).2 id = true) := by
  cases hlk : lookupAssoc reg.nodes (resolveBase f) with
  | none =>
    rw [resolve_id_lookup_none reg f hlk]
    have hnotin : resolveBase f ∉ reg.nodes.map Prod.fst := by
      intro hmem
      rcases List.mem_map.mp hmem with ⟨p, hp, hpk⟩
      exact lookupAssoc_none hlk p hp hpk
    refine ⟨⟨?_, ?_⟩, ?_, ?_⟩
    · simp only [List.map_append, List.map_cons, List.map_nil]
      rw [List.nodup_append]
      refine ⟨hwf.1, List.nodup_singleton _, ?_⟩
      intro a ha hb
      rw [List.mem_singleton] at hb
      subst hb
      exact hnotin ha
    · intro p hp
      rcases List.mem_append.mp hp with hp | hp
      · exact hwf.2 p hp
      · rw [List.mem_singleton] at hp; subst hp; simp
    · rw [idRegistered_iff]
      refine ⟨(resolveBase f, [f]), List.mem_append_right _ (List.mem_singleton_self _),
        0, by simp, ?_⟩
      simp [clusterName]
    · intro id hid
      rw [idRegistered_iff] at hid ⊢
      rcases hid with ⟨p, hp, i, hi, hcn⟩
      exact ⟨p, List.mem_append_left _ hp, i, hi, hcn⟩
  | some candidates =>
    rcases lookupAssoc_some hlk with ⟨p0, hp0mem, hp0key, hp0val⟩
    cases hfi : candidates.findIdx? (fun c => f.is_same_location_hybrid c reg.threshold) with
    | some i =>
      rw [resolve_id_lookup_found reg f candidates i hlk hfi]
      rcases findIdx?_some_sound _ candidates i hfi with ⟨x, hx, _⟩
      have hilt : i < candidates.length := (List.get?_eq_some.mp hx).1
      refine ⟨hwf, ?_, fun id hid => hid⟩
      rw [idRegistered_iff]
      refine ⟨p0, hp0mem, i, by rw [hp0val]; exact hilt, ?_⟩
      rw [hp0key, clusterName]
    | none =>
      rw [resolve_id_lookup_nomatch reg f candidates hlk hfi]
      have hkeys : (updateAssoc reg.nodes (resolveBase f) (candidates ++ [f])).map Prod.fst =
          reg.nodes.map Prod.fst := by
        unfold updateAssoc
        rw [List.map_map]
        refine List.map_congr_left ?_
        intro p hp
        by_cases hk : p.1 = resolveBase f
        · simp only [Function.comp]
          rw [if_pos (by simpa using hk)]
          exact hk.symm
        · simp only [Function.comp]
          rw [if_neg (by simpa using hk)]
      have hupd_mem : (resolveBase f, candidates ++ [f]) ∈
          updateAssoc reg.nodes (resolveBase f) (candidates ++ [f]) := by
        unfold updateAssoc
        refine List.mem_map.mpr ⟨p0, hp0mem, ?_⟩
        rw [if_pos (by simpa using hp0key)]
      have hlen0 : candidates.length ≠ 0 := by
        intro h0
        exact hwf.2 p0 hp0mem (by rw [hp0val]; exact List.length_eq_zero.mp h0)
      refine ⟨⟨by rw [hkeys]; exact hwf.1, ?_⟩, ?_, ?_⟩
      · intro p hp
        unfold updateAssoc at hp
        rcases List.mem_map.mp hp with ⟨q, hq, hqe⟩
        by_cases hk : q.1 == resolveBase f
        · rw [if_pos hk] at hqe
          rw [← hqe]
          simp
        · rw [if_neg hk] at hqe
          rw [← hqe]
          exact hwf.2 q hq
      · rw [idRegistered_iff]
        refine ⟨(resolveBase f, candidates ++ [f]), hupd_mem, candidates.length, by simp, ?_⟩
        rw [clusterName, if_neg hlen0]
      · intro id hid
        rw [idRegistered_iff] at hid ⊢
        rcases hid with ⟨q, hq, i, hi, hcn⟩
        by_cases hqk : q.1 = resolveBase f
        · have hqp0 : q = p0 := by
            have key_eq : q.1 = p0.1 := by rw [hqk, hp0key]
            exact List.inj_on_of_nodup_map hwf.1 hq hp0mem key_eq
          refine ⟨(resolveBase f, candidates ++ [f]), hupd_mem, i, ?_, ?_⟩
          · have hi2 : i < candidates.length := by
              rw [← hp0val]
              rw [hqp0] at hi
              exact hi
            simp only [List.length_append, List.length_cons, List.length_nil]
            omega
          · rw [hcn, hqk]
        · refine ⟨q, ?_, i, hi, hcn⟩
          unfold updateAssoc
          refine List.mem_map.mpr ⟨q, hq, ?_⟩
          rw [if_neg (by simpa using hqk)]

end Graphsight

namespace Graphsight

/-- A frontier focus whose `suggested_id` is a registry-resolved id. -/
def focusResolved (reg : NodeRegistry) (g : Focus) : Prop :=
  ∃ s, g.suggested_id = some s ∧ idRegistered reg s = true

/-- A step whose source id and edge targets are registry-resolved ids. -/
def stepResolved (reg : NodeRegistry) (st : StepInterpretation) : Prop :=
  (∃ s, st.source_id = some s ∧ idRegistered reg s = true) ∧
  ∀ e ∈ st.outgoing_edges, idRegistered reg e.target_id = true

theorem focusResolved_mono {reg reg2 : NodeRegistry}
    (hm : ∀ id, idRegistered reg id = true → idRegistered reg2 id = true)
    {g : Focus} (h : focusResolved reg g) : focusResolved reg2 g := by
  rcases h with ⟨s, h1, h2⟩
  exact ⟨s, h1, hm s h2⟩

theorem stepResolved_mono {reg reg2 : NodeRegistry}
    (hm : ∀ id, idRegistered reg id = true → idRegistered reg2 id = true)
    {st : StepInterpretation} (h : stepResolved reg st) : stepResolved reg2 st := by
  rcases h with ⟨⟨s, h1, h2⟩, h3⟩
  exact ⟨⟨s, h1, hm s h2⟩, fun e he => hm _ (h3 e he)⟩

theorem popFirstUnvisited_mem (visited : List (Option String)) :
    ∀ (l : List Focus) (f : Focus) (rest : List Focus),
      popFirstUnvisited visited l = some (f, rest) → f ∈ l ∧ ∀ g ∈ rest, g ∈ l := by
  intro l
  induction l with
  | nil => intro f rest h; simp [popFirstUnvisited] at h
  | cons a as ih =>
    intro f rest h
    by_cases hv : visited.contains a.suggested_id = true
    · rw [popFirstUnvisited, if_pos hv] at h
      rcases ih f rest h with ⟨h1, h2⟩
      exact ⟨List.mem_cons_of_mem _ h1, fun g hg => List.mem_cons_of_mem _ (h2 g hg)⟩
    · rw [popFirstUnvisited, if_neg hv] at h
      cases h
      exact ⟨List.mem_cons_self _ _, fun g hg => List.mem_cons_of_mem _ hg⟩

theorem popNext_mem (mode : String) (visited : List (Option String))
    (frontier : List Focus) (f : Focus) (rest : List Focus)
    (h : popNext mode visited frontier = some (f, rest)) :
    f ∈ frontier ∧ ∀ g ∈ rest, g ∈ frontier := by
  rw [popNext] at h
  by_cases hm : (pyLower mode == "dfs") = true
  · rw [if_pos hm] at h
    cases hp : popFirstUnvisited visited frontier.reverse with
    | none => rw [hp] at h; cases h
    | some pr =>
      rw [hp] at h
      cases h
      rcases popFirstUnvisited_mem visited frontier.reverse pr.1 pr.2 (by rw [hp]) with ⟨h1, h2⟩
      exact ⟨List.mem_reverse.mp h1,
        fun g hg => List.mem_reverse.mp (h2 g (List.mem_reverse.mp hg))⟩
  · rw [if_neg hm] at h
    exact popFirstUnvisited_mem visited frontier f rest h

/-- The Focus built from an outgoing edge inside the crawl loop. -/
def edgeFocus (e : ConnectedNode) : Focus :=
  { description := e.description, bbox := e.bbox, grid_refs := e.grid_refs,
    suggested_id := some e.target_id }

theorem processEdges_cons (visited : List (Option String)) (e : ConnectedNode)
    (es : List ConnectedNode) (reg : NodeRegistry) :
    processEdges visited (e :: es) reg =
      ({ e with target_id := (reg.resolve_id (edgeFocus e)).1 } ::
         (processEdges visited es (reg.resolve_id (edgeFocus e)).2).1,
       (if visited.contains (some (reg.resolve_id (edgeFocus e)).1) then []
        else [{ edgeFocus e with suggested_id := some (reg.resolve_id (edgeFocus e)).1 }]) ++
         (processEdges visited es (reg.resolve_id (edgeFocus e)).2).2.1,
       (processEdges visited es (reg.resolve_id (edgeFocus e)).2).2.2) := rfl

theorem processEdges_spec (visited : List (Option String)) :
    ∀ (edges : List ConnectedNode) (reg : NodeRegistry), regWF reg →
      regWF (processEdges visited edges reg).2.2 ∧
      (∀ id, idRegistered reg id = true →
        idRegistered (processEdges visited edges reg).2.2 id = true) ∧
      (∀ e2 ∈ (processEdges visited edges reg).1,
        idRegistered (processEdges visited edges reg).2.2 e2.target_id = true) ∧
      (∀ g ∈ (processEdges visited edges reg).2.1,
        focusResolved (processEdges visited edges reg).2.2 g) := by
  intro edges
  induction edges with
  | nil =>
    intro reg hwf
    exact ⟨hwf, fun id h => h, by intro e2 h; simp [processEdges] at h,
      by intro g h; simp [processEdges] at h⟩
  | cons e es ih =>
    intro reg hwf
    rw [processEdges_cons]
    obtain ⟨hwfR, hregR, hmonoR⟩ := resolve_id_spec reg (edgeFocus e) hwf
    obtain ⟨ihwf, ihmono, ihedges, ihfoci⟩ := ih _ hwfR
    refine ⟨ihwf, ?_, ?_, ?_⟩
    · intro id hid
      exact ihmono id (hmonoR id hid)
    · intro e2 he2
      rcases List.mem_cons.mp he2 with rfl | he2
      · exact ihmono _ hregR
      · exact ihedges e2 he2
    · intro g hg
      rcases List.mem_append.mp hg with hg | hg
      · by_cases hv : visited.contains (some (reg.resolve_id (edgeFocus e)).1) = true
        · rw [if_pos hv] at hg; simp at hg
        · rw [if_neg hv] at hg
          rw [List.mem_singleton] at hg
          subst hg
          exact ⟨(reg.resolve_id (edgeFocus e)).1, rfl, ihmono _ hregR⟩
      · exact ihfoci g hg

theorem seedFrontier_cons (f : Focus) (fs : List Focus) (reg : NodeRegistry) :
    seedFrontier (f :: fs) reg =
      ({ f with suggested_id := some (reg.resolve_id f).1 } ::
         (seedFrontier fs (reg.resolve_id f).2).1,
       (seedFrontier fs (reg.resolve_id f).2).2) := rfl

theorem seedFrontier_spec :
    ∀ (fs : List Focus) (reg : NodeRegistry), regWF reg →
      regWF (seedFrontier fs reg).2 ∧
      (∀ id, idRegistered reg id = true → idRegistered (seedFrontier fs reg).2 id = true) ∧
      (∀ g ∈ (seedFrontier fs reg).1, focusResolved (seedFrontier fs reg).2 g) := by
  intro fs
  induction fs with
  | nil =>
    intro reg hwf
    exact ⟨hwf, fun id h => h, by intro g h; simp [seedFrontier] at h⟩
  | cons f fs ih =>
    intro reg hwf
    rw [seedFrontier_cons]
    obtain ⟨hwfR, hregR, hmonoR⟩ := resolve_id_spec reg f hwf
    obtain ⟨ihwf, ihmono, ihfoci⟩ := ih _ hwfR
    refine ⟨ihwf, ?_, ?_⟩
    · intro id hid
      exact ihmono id (hmonoR id hid)
    · intro g hg
      rcases List.mem_cons.mp hg with rfl | hg
      · exact ⟨(reg.resolve_id f).1, rfl, ihmono _ hregR⟩
      · exact ihfoci g hg

end Graphsight

namespace Graphsight

/-- The step object before edge rewriting (oracle report plus injected
source metadata). -/
def crawlStep0 (strat : BaseStrategy) (calls : Nat) (current : Focus)
    (hist : List StepInterpretation) : StepInterpretation :=
  { strat.interpret_step calls current hist with
      source_id := current.suggested_id,
      source_grid_refs := current.grid_refs,
      source_bbox := current.bbox }

theorem crawlLoop_zero (strat : BaseStrategy) (mode : String)
    (hist : List StepInterpretation) (frontier : List Focus)
    (visited : List (Option String)) (reg : NodeRegistry) (calls : Nat) :
    crawlLoop strat mode 0 hist frontier visited reg calls = (hist, reg, calls) := rfl

theorem crawlLoop_succ_none (strat : BaseStrategy) (mode : String) (budget : Nat)
    (hist : List StepInterpretation) (frontier : List Focus)
    (visited : List (Option String)) (reg : NodeRegistry) (calls : Nat)
    (hpop : popNext mode visited frontier = none) :
    crawlLoop strat mode (budget + 1) hist frontier visited reg calls = (hist, reg, calls) := by
  rw [crawlLoop, hpop]

theorem crawlLoop_succ_some (strat : BaseStrategy) (mode : String) (budget : Nat)
    (hist : List StepInterpretation) (frontier : List Focus)
    (visited : List (Option String)) (reg : NodeRegistry) (calls : Nat)
    (current : Focus) (rest : List Focus)
    (hpop : popNext mode visited frontier = some (current, rest)) :
    crawlLoop strat mode (budget + 1) hist frontier visited reg calls =
      crawlLoop strat mode budget
        (hist ++ [{ crawlStep0 strat calls current hist with
            outgoing_edges := (processEdges (current.suggested_id :: visited)
              (crawlStep0 strat calls current hist).outgoing_edges reg).1 }])
        (rest ++ (processEdges (current.suggested_id :: visited)
            (crawlStep0 strat calls current hist).outgoing_edges reg).2.1)
        (current.suggested_id :: visited)
        (processEdges (current.suggested_id :: visited)
            (crawlStep0 strat calls current hist).outgoing_edges reg).2.2
        (calls + 1) := by
  rw [crawlLoop, hpop]
  rfl

/-- The crawl-loop invariant: the result length respects the budget, the
registry stays well-formed and grows monotonically, and every step in
the result (old or new) carries registry-resolved ids. -/
theorem crawlLoop_spec (strat : BaseStrategy) (mode : String) :
    ∀ (budget : Nat) (hist : List StepInterpretation) (frontier : List Focus)
      (visited : List (Option String)) (reg : NodeRegistry) (calls : Nat),
      regWF reg →
      (∀ g ∈ frontier, focusResolved reg g) →
      (∀ st ∈ hist, stepResolved reg st) →
      (crawlLoop strat mode budget hist frontier visited reg calls).1.length ≤
        hist.length + budget ∧
      regWF (crawlLoop strat mode budget hist frontier visited reg calls).2.1 ∧
      (∀ id, idRegistered reg id = true →
        idRegistered (crawlLoop strat mode budget hist frontier visited reg calls).2.1 id = true) ∧
      (∀ st ∈ (crawlLoop strat mode budget hist frontier visited reg calls).1,
        stepResolved (crawlLoop strat mode budget hist frontier visited reg calls).2.1 st) := by
  intro budget
  induction budget with
  | zero =>
    intro hist frontier visited reg calls hwf _ hhist
    rw [crawlLoop_zero]
    exact ⟨Nat.le_refl _, hwf, fun id h => h, hhist⟩
  | succ budget ih =>
    intro hist frontier visited reg calls hwf hfront hhist
    cases hpop : popNext mode visited frontier with
    | none =>
      rw [crawlLoop_succ_none strat mode budget hist frontier visited reg calls hpop]
      exact ⟨Nat.le_add_right _ _, hwf, fun id h => h, hhist⟩
    | some pr =>
      obtain ⟨current, rest⟩ := pr
      rw [crawlLoop_succ_some strat mode budget hist frontier visited reg calls current rest hpop]
      obtain ⟨hcur, hrest⟩ := popNext_mem mode visited frontier current rest hpop
      obtain ⟨s, hsid, hsreg⟩ := hfront current hcur
      obtain ⟨pwf, pmono, pedges, pfoci⟩ := processEdges_spec
        (current.suggested_id :: visited)
        (crawlStep0 strat calls current hist).outgoing_edges reg hwf
      have hfront2 : ∀ g ∈ rest ++ (processEdges (current.suggested_id :: visited)
          (crawlStep0 strat calls current hist).outgoing_edges reg).2.1,
          focusResolved (processEdges (current.suggested_id :: visited)
            (crawlStep0 strat calls current hist).outgoing_edges reg).2.2 g := by
        intro g hg
        rcases List.mem_append.mp hg with hg | hg
        · exact focusResolved_mono pmono (hfront g (hrest g hg))
        · exact pfoci g hg
      have hhist2 : ∀ st ∈ hist ++ [{ crawlStep0 strat calls current hist with
            outgoing_edges := (processEdges (current.suggested_id :: visited)
              (crawlStep0 strat calls current hist).outgoing_edges reg).1 }],
          stepResolved (processEdges (current.suggested_id :: visited)
            (crawlStep0 strat calls current hist).outgoing_edges reg).2.2 st := by
        intro st hst
        rcases List.mem_append.mp hst with hst | hst
        · exact stepResolved_mono pmono (hhist st hst)
        · rw [List.mem_singleton] at hst
          subst hst
          exact ⟨⟨s, hsid, pmono s hsreg⟩, pedges⟩
      obtain ⟨ihlen, ihwf, ihmono, ihsteps⟩ := ih _ _ (current.suggested_id :: visited) _
        (calls + 1) pwf hfront2 hhist2
      refine ⟨?_, ihwf, ?_, ihsteps⟩
      · calc _ ≤ (hist ++ [_]).length + budget := ihlen
          _ = hist.length + (budget + 1) := by simp [List.length_append]; omega
      · intro id hid
        exact ihmono id (pmono id hid)

/-- Claim C5: crawling from a fresh registry, every emitted step carries
a `NodeRegistry`-resolved source id and registry-resolved edge targets
(never raw oracle text), and the crawl emits at most 30 steps (the hard
ceiling; it otherwise stops when the frontier has no unvisited focus
left). -/
theorem C5_theorem (strat : BaseStrategy) (tmode m : String) (t : Int) (calls : Nat) :
    ((crawl strat tmode { nodes := [], mode := m, threshold := t } calls).1.length ≤ 30) ∧
    (∀ st ∈ (crawl strat tmode { nodes := [], mode := m, threshold := t } calls).1,
      stepResolved (crawl strat tmode { nodes := [], mode := m, threshold := t } calls).2.1 st) := by
  have hwf0 : regWF { nodes := [], mode := m, threshold := t } := by
    constructor
    · simp
    · intro p hp; simp at hp
  obtain ⟨swf, _, sfoci⟩ := seedFrontier_spec strat.find_initial_focus
    { nodes := [], mode := m, threshold := t } hwf0
  obtain ⟨hlen, _, _, hsteps⟩ := crawlLoop_spec strat tmode 30 []
    (seedFrontier strat.find_initial_focus { nodes := [], mode := m, threshold := t }).1 []
    (seedFrontier strat.find_initial_focus { nodes := [], mode := m, threshold := t }).2 calls
    swf sfoci (by intro st h; simp at h)
  exact ⟨by simpa using hlen, hsteps⟩

/-- The single step emitted when crawling with the ghost oracle. -/
def ghostCrawlStep : StepInterpretation :=
  { outgoing_edges := [], source_id := some "A", source_grid_refs := some ["A1"] }

/-- Witness for `C5_theorem` on a concrete crawl. -/
theorem C5_theorem_witness :
    ghostCrawlStep ∈
      (crawl ghostStrategy "dfs" { nodes := [], mode := "bbox", threshold := 150 } 0).1 ∧
    stepResolved
      (crawl ghostStrategy "dfs" { nodes := [], mode := "bbox", threshold := 150 } 0).2.1
      ghostCrawlStep :=
  ⟨by decide,
   (C5_theorem ghostStrategy "dfs" "bbox" 150 0).2 ghostCrawlStep (by decide)⟩

end Graphsight

namespace DraftRefine

open Graphsight (pyor)

/-- `draft_refine/models.py` `Node`.  The `shape` Literal is modelled as
a string together with `validShape` (pydantic enforces the Literal only
at construction time; attribute assignment bypasses validation). -/
structure Node where
  id : String
  label : String
  shape : String := "rect"
  actor : Option String := none
deriving Repr, DecidableEq

/-- The `Node.shape` Literal alternatives. -/
def validShape (s : String) : Bool :=
  s == "rect" || s == "diamond" || s == "round" || s == "stadium" || s == "hex" || s == "circle"

/-- `draft_refine/models.py` `Edge`. -/
structure Edge where
  src : String
  dst : String
  label : String := ""
  style : String := "-->"
deriving Repr, DecidableEq

/-- The `Edge.style` Literal alternatives. -/
def validStyle (s : String) : Bool :=
  s == "-->" || s == "---" || s == "-.->" || s == "==>" || s == "==="

/-- `draft_refine/models.py` `GraphStructure`: direction, insertion-
ordered id→Node dict, edge list. -/
structure GraphStructure where
  direction : String := "TD"
  nodes : List (String × Node) := []
  edges : List Edge := []
deriving Repr, DecidableEq

/-- `nid in graph.nodes`. -/
def hasNode (g : GraphStructure) (nid : String) : Bool :=
  g.nodes.any (fun p => p.1 == nid)

/-- In-place update of the node stored under an existing key
(`graph.nodes[nid].label = ...` etc.; key order preserved). -/
def updNode (g : GraphStructure) (nid : String) (f : Node → Node) : GraphStructure :=
  { g with nodes := g.nodes.map (fun p => if p.1 == nid then (p.1, f p.2) else p) }

/-- The closed operation vocabulary (`GraphOperation.op` Literal). -/
inductive OpKind
  | relabel
  | reshape
  | add_edge
  | remove_edge
  | add_node
  | remove_node
  | relabel_edge
deriving Repr, DecidableEq

/-- `draft_refine/models.py` `GraphOperation`. -/
structure GraphOperation where
  op : OpKind
  node_id : Option String := none
  new_label : Option String := none
  new_shape : Option String := none
  src : Option String := none
  dst : Option String := none
  label : Option String := none
  style : Option String := none
deriving Repr, DecidableEq

/-- One iteration of the operation loop in
`DraftRefinePipeline._apply_structural_corrections`.  The enclosing
`try/except` turns any pydantic construction failure (a `None` required
field, an invalid Literal) into a logged skip, which is modelled by the
no-change branches.  Attribute assignments (`relabel`, `reshape`,
`relabel_edge`) bypass validation in Python and may store `None`;
labels/shapes are strings here, so a `None` assignment is modelled as
the empty string (no claim depends on that value). -/
def applyOp (g : GraphStructure) (op : GraphOperation) : GraphStructure :=
  match op.op with
  | .relabel =>
    match op.node_id with
    | some nid => if hasNode g nid then
        updNode g nid (fun n => { n with label := op.new_label.getD "" }) else g
    | none => g
  | .reshape =>
    match op.node_id with
    | some nid => if hasNode g nid then
        updNode g nid (fun n => { n with shape := op.new_shape.getD "" }) else g
    | none => g
  | .add_edge =>
    match op.src, op.dst with
    | some s, some d =>
      if g.edges.any (fun e => e.src == s && e.dst == d) then g
      else
        let style := pyor op.style "-->"
        if validStyle style then
          { g with edges := g.edges ++
              [{ src := s, dst := d, label := op.label.getD "", style := style }] }
        else g
    | _, _ => g
  | .remove_edge =>
    { g with edges :=
        g.edges.filter (fun e => !(op.src == some e.src && op.dst == some e.dst)) }
  | .add_node =>
    match op.node_id with
    | some nid =>
      if hasNode g nid then g
      else
        let shape := pyor op.new_shape "rect"
        if validShape shape then
          { g with nodes := g.nodes ++
              [(nid, { id := nid, label := pyor op.label nid, shape := shape })] }
        else g
    | none => g
  | .remove_node =>
    match op.node_id with
    | some nid =>
      if hasNode g nid then
        { g with nodes := g.nodes.filter (fun p => !(p.1 == nid)),
                 edges := g.edges.filter (fun e => !(e.src == nid) && !(e.dst == nid)) }
      else g
    | none => g
  | .relabel_edge =>
    { g with edges :=
        g.edges.map (fun e =>
          if some e.src == op.src && some e.dst == op.dst then
            { e with label := op.label.getD "" }
          else e) }

/-- The whole operation batch of `_apply_structural_corrections`
(total: no operation can abort the batch). -/
def applyOps (g : GraphStructure) (ops : List GraphOperation) : GraphStructure :=
  ops.foldl applyOp g

end DraftRefine

namespace DraftRefine

open Graphsight (pyor)

theorem hasNode_updNode (g : GraphStructure) (nid : String) (f : Node → Node) (k : String) :
    hasNode (updNode g nid f) k = hasNode g k := by
  unfold hasNode updNode
  rw [List.any_map]
  have hfn : ((fun (p : String × Node) => p.1 == k) ∘
      fun p => if p.1 == nid then (p.1, f p.2) else p) =
      (fun (p : String × Node) => p.1 == k) := by
    funext p
    by_cases h : (p.1 == nid) = true <;> simp [h, Function.comp]
  rw [hfn]

theorem updNode_updNode (g : GraphStructure) (nid : String) (f1 f2 : Node → Node) :
    updNode (updNode g nid f1) nid f2 = updNode g nid (fun n => f2 (f1 n)) := by
  unfold updNode
  simp only [List.map_map]
  have hfn : ∀ p ∈ g.nodes,
      ((fun (p : String × Node) => if p.1 == nid then (p.1, f2 p.2) else p) ∘
        fun p => if p.1 == nid then (p.1, f1 p.2) else p) p =
      (if p.1 == nid then (p.1, f2 (f1 p.2)) else p) := by
    intro p _
    by_cases h : (p.1 == nid) = true <;> simp [h, Function.comp]
  simp only [List.map_congr_left hfn]

/-- Claim C9: the structural-correction operations.  (1) Every operation
is idempotent.  (2) `relabel`/`reshape`/`remove_node` on a missing node
id are skipped (no change, no exception).  (3) `add_edge` dedupes by
`(src, dst)` endpoints.  (4) `add_node` is a no-op when the id exists.
(5) `remove_node` of a present node removes the node and every incident
edge.  Totality of `applyOp`/`applyOps` models the per-operation
`try/except`: a whole batch never aborts. -/
theorem C9_theorem (g : GraphStructure) (op : GraphOperation) :
    (applyOp (applyOp g op) op = applyOp g op) ∧
    (∀ nid, op.node_id = some nid → hasNode g nid = false →
      (op.op = OpKind.relabel ∨ op.op = OpKind.reshape ∨ op.op = OpKind.remove_node) →
      applyOp g op = g) ∧
    (op.op = OpKind.add_edge → ∀ s d, op.src = some s → op.dst = some d →
      g.edges.any (fun e => e.src == s && e.dst == d) = true → applyOp g op = g) ∧
    (op.op = OpKind.add_node → ∀ nid, op.node_id = some nid → hasNode g nid = true →
      applyOp g op = g) ∧
    (op.op = OpKind.remove_node → ∀ nid, op.node_id = some nid → hasNode g nid = true →
      hasNode (applyOp g op) nid = false ∧
      ∀ e ∈ (applyOp g op).edges, e.src ≠ nid ∧ e.dst ≠ nid) := by
  refine ⟨?_, ?_, ?_, ?_, ?_⟩
  · -- idempotence
    cases hop : op.op with
    | relabel =>
      cases hnid : op.node_id with
      | none => simp [applyOp, hop, hnid]
      | some nid =>
        by_cases hh : hasNode g nid = true
        · simp only [applyOp, hop, hnid, hh, if_true, hasNode_updNode, updNode_updNode]
        · have h1 : applyOp g op = g := by
            simp only [applyOp, hop, hnid]
            rw [if_neg hh]
          rw [h1, h1]
    | reshape =>
      cases hnid : op.node_id with
      | none => simp [applyOp, hop, hnid]
      | some nid =>
        by_cases hh : hasNode g nid = true
        · simp only [applyOp, hop, hnid, hh, if_true, hasNode_updNode, updNode_updNode]
        · have h1 : applyOp g op = g := by
            simp only [applyOp, hop, hnid]
            rw [if_neg hh]
          rw [h1, h1]
    | add_edge =>
      cases hs : op.src with
      | none => simp [applyOp, hop, hs]
      | some s =>
        cases hd : op.dst with
        | none => simp [applyOp, hop, hs, hd]
        | some d =>
          simp only [applyOp, hop, hs, hd]
          by_cases hdup : g.edges.any (fun e => e.src == s && e.dst == d) = true
          · rw [if_pos hdup, if_pos hdup]
          · rw [if_neg hdup]
            by_cases hv : validStyle (pyor op.style "-->") = true
            · rw [if_pos hv]
              have hdup2 : ((g.edges ++
                  [({ src := s, dst := d, label := op.label.getD "",
                      style := pyor op.style "-->" } : Edge)]).any
                    (fun e => e.src == s && e.dst == d)) = true := by
                rw [List.any_append]
                simp
              rw [if_pos hdup2]
            · rw [if_neg hv, if_neg hdup, if_neg hv]
    | remove_edge =>
      simp only [applyOp, hop]
      have hff : ∀ (l : List Edge),
          (l.filter (fun e => !(op.src == some e.src && op.dst == some e.dst))).filter
            (fun e => !(op.src == some e.src && op.dst == some e.dst)) =
          l.filter (fun e => !(op.src == some e.src && op.dst == some e.dst)) := by
        intro l
        apply List.filter_eq_self.mpr
        intro a ha
        exact List.of_mem_filter (p := fun (e : Edge) =>
          !(op.src == some e.src && op.dst == some e.dst)) ha
      rw [hff]
    | add_node =>
      cases hnid : op.node_id with
      | none => simp [applyOp, hop, hnid]
      | some nid =>
        simp only [applyOp, hop, hnid]
        by_cases hh : hasNode g nid = true
        · rw [if_pos hh, if_pos hh]
        · rw [if_neg hh]
          by_cases hv : validShape (pyor op.new_shape "rect") = true
          · rw [if_pos hv]
            have hh2 : hasNode { g with nodes := g.nodes ++
                [(nid, { id := nid, label := pyor op.label nid,
                         shape := pyor op.new_shape "rect" })] } nid = true := by
              unfold hasNode
              rw [List.any_append]
              simp
            rw [if_pos hh2]
          · rw [if_neg hv, if_neg hh, if_neg hv]
    | remove_node =>
      cases hnid : op.node_id with
      | none => simp [applyOp, hop, hnid]
      | some nid =>
        simp only [applyOp, hop, hnid]
        by_cases hh : hasNode g nid = true
        · rw [if_pos hh]
          have hh2 : hasNode { g with
              nodes := g.nodes.filter (fun p => !(p.1 == nid)),
              edges := g.edges.filter (fun e => !(e.src == nid) && !(e.dst == nid)) } nid =
              false := by
            unfold hasNode
            rw [List.any_eq_false]
            intro p hp
            have := List.of_mem_filter hp
            simpa using this
          rw [hh2]
          simp
        · rw [if_neg hh, if_neg hh]
    | relabel_edge =>
      simp only [applyOp, hop, List.map_map]
      have hfn : ∀ e ∈ g.edges,
          ((fun (e : Edge) => if some e.src == op.src && some e.dst == op.dst then
              { e with label := op.label.getD "" } else e) ∘
            fun e => if some e.src == op.src && some e.dst == op.dst then
              { e with label := op.label.getD "" } else e) e =
          (if some e.src == op.src && some e.dst == op.dst then
            { e with label := op.label.getD "" } else e) := by
        intro e _
        by_cases hc : (some e.src == op.src && some e.dst == op.dst) = true
        · simp [Function.comp, hc]
        · simp [Function.comp, hc]
      simp only [List.map_congr_left hfn]
  · -- skip on missing target
    intro nid hnid hmiss hkind
    rcases hkind with hk | hk | hk <;> simp [applyOp, hk, hnid, hmiss]
  · -- add_edge dedupes by endpoints
    intro hk s d hs hd hdup
    simp [applyOp, hk, hs, hd, hdup]
  · -- add_node no-op when the id exists
    intro hk nid hnid hh
    simp [applyOp, hk, hnid, hh]
  · -- remove_node cascades to incident edges
    intro hk nid hnid hh
    constructor
    · simp only [applyOp, hk, hnid, hh, if_true]
      unfold hasNode
      rw [List.any_eq_false]
      intro p hp
      have := List.of_mem_filter hp
      simpa using this
    · intro e he
      simp only [applyOp, hk, hnid, hh, if_true] at he
      have := List.of_mem_filter he
      constructor
      · intro hEq
        rw [hEq] at this
        simp at this
      · intro hEq
        rw [hEq] at this
        simp at this

end DraftRefine

namespace DraftRefine

/-- Example graph for the C9 witness. -/
def g9 : GraphStructure :=
  { nodes := [("A", { id := "A", label := "Start" }), ("B", { id := "B", label := "End" })],
    edges := [{ src := "A", dst := "B" }] }

def opDup : GraphOperation := { op := .add_edge, src := some "A", dst := some "B" }

def opRm : GraphOperation := { op := .remove_node, node_id := some "A" }

/-- Witness for `C9_theorem`: a duplicate `add_edge` is a no-op, and
`remove_node` removes the node and its incident edge. -/
theorem C9_theorem_witness :
    (applyOp (applyOp g9 opDup) opDup = applyOp g9 opDup) ∧
    (g9.edges.any (fun e => e.src == "A" && e.dst == "B") = true ∧
      applyOp g9 opDup = g9) ∧
    (hasNode g9 "A" = true ∧ hasNode (applyOp g9 opRm) "A" = false ∧
      ∀ e ∈ (applyOp g9 opRm).edges, e.src ≠ "A" ∧ e.dst ≠ "A") :=
  ⟨(C9_theorem g9 opDup).1,
   ⟨by decide, (C9_theorem g9 opDup).2.2.1 rfl "A" "B" rfl rfl (by decide)⟩,
   ⟨by decide, ((C9_theorem g9 opRm).2.2.2.2 rfl "A" rfl (by decide)).1,
     ((C9_theorem g9 opRm).2.2.2.2 rfl "A" rfl (by decide)).2⟩⟩

/-- `DraftRefinePipeline._apply_structural_corrections` with the object
heap made explicit: graphs live in a store; the method deep-copies the
input graph (`copy.deepcopy(graph)`), applies the oracle-planned
operations to the copy only, and returns the copy.  The oracle call
that produces `ops` only reads `graph` (to build the summary prompt)
and is quantified over here. -/
def applyStructuralCorrections (store : List GraphStructure) (i : Nat)
    (ops : List GraphOperation) : List GraphStructure × Nat :=
  match store.get? i with
  | none => (store, i)
  | some g => (store ++ [applyOps g ops], store.length)

/-- Claim C10: applying a correction plan never mutates the input
graph: the caller's slot (and every other pre-existing slot) of the
store is unchanged, and the returned graph is the corrected deep copy. -/
theorem C10_theorem (store : List GraphStructure) (i : Nat) (ops : List GraphOperation)
    (g : GraphStructure) (hg : store.get? i = some g) :
    ((applyStructuralCorrections store i ops).1.get? i = some g) ∧
    (∀ j, j < store.length →
      (applyStructuralCorrections store i ops).1.get? j = store.get? j) ∧
    ((applyStructuralCorrections store i ops).1.get?
        (applyStructuralCorrections store i ops).2 = some (applyOps g ops)) := by
  have hlt : i < store.length := (List.get?_eq_some.mp hg).1
  have heq : applyStructuralCorrections store i ops =
      (store ++ [applyOps g ops], store.length) := by
    rw [applyStructuralCorrections, hg]
  rw [heq]
  refine ⟨?_, ?_, ?_⟩
  · rw [List.get?_append hlt]
    exact hg
  · intro j hj
    rw [List.get?_append hj]
  · exact List.get?_concat_length _ _

/-- Witness for `C10_theorem` on a concrete one-graph store. -/
theorem C10_theorem_witness :
    ([g9].get? 0 = some g9) ∧
    ((applyStructuralCorrections [g9] 0 [opRm]).1.get? 0 = some g9) ∧
    ((applyStructuralCorrections [g9] 0 [opRm]).1.get?
        (applyStructuralCorrections [g9] 0 [opRm]).2 = some (applyOps g9 [opRm])) :=
  ⟨rfl, (C10_theorem [g9] 0 [opRm] g9 rfl).1,
    (C10_theorem [g9] 0 [opRm] g9 rfl).2.2⟩

end DraftRefine

namespace DraftRefine

open Graphsight (pyLower pyReplace pyStrip insertUnique)

/-- Python truthiness of an optional string (`if node.actor:`). -/
def pyTruthy : Option String → Bool
  | some s => s ≠ ""
  | none => false

/-- Newline join of `"\n".join(lines)`. -/
def joinNl : List String → String
  | [] => ""
  | [s] => s
  | s :: rest => s ++ "\n" ++ joinNl rest

/-- The bracket table of `GraphStructure._node_str` (`brackets.get`
with the rect default). -/
def shapeBrackets (shape : String) : String × String :=
  if shape = "rect" then ("[", "]")
  else if shape = "round" then ("(", ")")
  else if shape = "diamond" then ("\x7b", "\x7d")
  else if shape = "stadium" then ("([", "])")
  else if shape = "hex" then ("\x7b\x7b", "\x7d\x7d")
  else if shape = "circle" then ("((", "))")
  else ("[", "]")

/-- `GraphStructure._node_str`: `id` + open bracket + quoted label (with
double quotes replaced by single quotes) + close bracket. -/
def node_str (n : Node) : String :=
  let b := shapeBrackets n.shape
  let safe_label := pyReplace n.label "\"" "'"
  n.id ++ b.1 ++ "\"" ++ safe_label ++ "\"" ++ b.2

/-- The truthy actor of a node (`if node.actor:`). -/
def truthyActor (n : Node) : Option String :=
  match n.actor with
  | some a => if a = "" then none else some a
  | none => none

/-- First-appearance order of the truthy actors (the iteration order of
`nodes_by_actor`). -/
def actorKeys (ns : List Node) : List String :=
  ns.foldl (fun acc n =>
    match truthyActor n with
    | some a => insertUnique acc a
    | none => acc) []

/-- The subgraph block for one actor (counter `k`, 1-based). -/
def subgraphLines (ns : List Node) (k : Nat) (a : String) : List String :=
  ("    subgraph sg_" ++ toString k ++ " [\"" ++ pyReplace a "\"" "'" ++ "\"]") ::
    ((ns.filter (fun n => truthyActor n == some a)).map
      (fun n => "        " ++ node_str n)) ++ ["    end"]

/-- All subgraph blocks, numbering actors in first-appearance order. -/
def subgraphBlocks (ns : List Node) : List String :=
  ((actorKeys ns).enum.map (fun p => subgraphLines ns (p.1 + 1) p.2)).join

/-- One edge line (labelled or bare, on the truthiness of the label). -/
def edgeLine (e : Edge) : String :=
  if e.label ≠ "" then
    "    " ++ e.src ++ " " ++ e.style ++ "|" ++ e.label ++ "| " ++ e.dst
  else
    "    " ++ e.src ++ " " ++ e.style ++ " " ++ e.dst

/-- `GraphStructure.to_mermaid`: direction header, actor subgraphs,
actor-less node lines, edge lines. -/
def GraphStructure.to_mermaid (g : GraphStructure) : String :=
  let ns := g.nodes.map Prod.snd
  joinNl (("graph " ++ g.direction) ::
    subgraphBlocks ns ++
    ((ns.filter (fun n => !(pyTruthy n.actor))).map (fun n => "    " ++ node_str n)) ++
    g.edges.map edgeLine)

end DraftRefine

namespace DraftRefine

namespace MermaidParser

open Graphsight (pyStrip insertUnique)

/-- A single-quote character (used by the label quote-stripping). -/
def squote : Char := Char.ofNat 39

/-- Python `str.splitlines()` for newline-separated text (the serializer
emits only `\n`): interior empty lines kept, a trailing final empty
piece dropped. -/
def splitlinesAux : List Char → List Char → List String
  | [], acc => if acc.isEmpty then [] else [String.mk acc.reverse]
  | c :: rest, acc =>
    if c = '\n' then String.mk acc.reverse :: splitlinesAux rest []
    else splitlinesAux rest (c :: acc)

def pySplitlines (s : String) : List String :=
  splitlinesAux s.toList []

/-- `ARROW_PATTERNS` (longest first): token characters and style text. -/
def arrowTokens : List (List Char × String) :=
  [("-.->".toList, "-.->"), ("===".toList, "==="), ("==>".toList, "==>"),
   ("-->".toList, "-->"), ("---".toList, "---")]

/-- One of the arrow tokens starts here (the negative lookahead set of
preprocess rule 5, and `_contains_arrow` at one position). -/
def arrowAt (s : List Char) : Bool :=
  arrowTokens.any (fun a => a.1.isPrefixOf s)

/-- `_contains_arrow`: some arrow token occurs as a substring. -/
def containsArrowTok (t : List Char) : Bool :=
  (List.range (t.length + 1)).any (fun i => arrowAt (t.drop i))

/-- Label candidates of `--\|(.+?)\|\s*TAIL` (preprocess rules 1-4):
the lazily shortest non-empty label up to a bar such that optional
whitespace and the tail arrow follow; on failure the bar joins the
label and the search continues (regex backtracking).  Returns the
replacement `" TAIL|label|"` and the remainder after the match. -/
def labelCandidates (tail : List Char) (tailStr : String) :
    List Char → List Char → Option (List Char × List Char)
  | _, [] => none
  | acc, c :: rest =>
    if c = '\n' then none
    else if c = '|' && !acc.isEmpty then
      let afterWs := rest.dropWhile Char.isWhitespace
      if tail.isPrefixOf afterWs then
        some ((" " ++ tailStr ++ "|").toList ++ acc.reverse ++ ['|'],
          afterWs.drop tail.length)
      else labelCandidates tail tailStr ('|' :: acc) rest
    else labelCandidates tail tailStr (c :: acc) rest

/-- A match attempt of preprocess rules 1-4 (`\s*--\|(.+?)\|\s*TAIL`,
replacement `" TAIL|label|"`) at the current position. -/
def tryMatchSub (tail : List Char) (tailStr : String) (s : List Char) :
    Option (List Char × List Char) :=
  let s1 := s.dropWhile Char.isWhitespace
  if "--|".toList.isPrefixOf s1 then labelCandidates tail tailStr [] (s1.drop 3)
  else none

/-- Label candidates of preprocess rule 5
(`\s*--\|(.+?)\|\s+(?!arrows)`, replacement `" ---|label| "`): after the
closing bar a non-empty whitespace run must follow; the greedy `\s+`
backtracks by one character when an arrow sits right after the run
(the lookahead then holds at the preceding whitespace character). -/
def labelCandidates5 : List Char → List Char → Option (List Char × List Char)
  | _, [] => none
  | acc, c :: rest =>
    if c = '\n' then none
    else if c = '|' && !acc.isEmpty then
      let run := (rest.takeWhile Char.isWhitespace).length
      let s3 := rest.drop run
      if run = 0 then labelCandidates5 ('|' :: acc) rest
      else if !arrowAt s3 then
        some (" ---|".toList ++ acc.reverse ++ "| ".toList, s3)
      else if 2 ≤ run then
        some (" ---|".toList ++ acc.reverse ++ "| ".toList, rest.drop (run - 1))
      else labelCandidates5 ('|' :: acc) rest
    else labelCandidates5 (c :: acc) rest

def tryMatchSub5 (s : List Char) : Option (List Char × List Char) :=
  let s1 := s.dropWhile Char.isWhitespace
  if "--|".toList.isPrefixOf s1 then labelCandidates5 [] (s1.drop 3)
  else none

/-- `re.sub` scan: leftmost non-overlapping matches, scanning resumes
after each replacement. -/
def subScan (f : List Char → Option (List Char × List Char)) :
    Nat → List Char → List Char
  | 0, s => s
  | _ + 1, [] => []
  | fuel + 1, c :: rest =>
    match f (c :: rest) with
    | some (rep, after) => rep ++ subScan f fuel after
    | none => c :: subScan f fuel rest

/-- `MermaidParser._preprocess_line`: the five `re.sub` rewrites in
order. -/
def preprocess_line (line : String) : String :=
  let l1 := subScan (tryMatchSub "-->".toList "-->") line.toList.length line.toList
  let l2 := subScan (tryMatchSub "---".toList "---") l1.length l1
  let l3 := subScan (tryMatchSub "-.->".toList "-.->") l2.length l2
  let l4 := subScan (tryMatchSub "==>".toList "==>") l3.length l3
  String.mk (subScan tryMatchSub5 l4.length l4)

end MermaidParser

end DraftRefine

namespace DraftRefine

namespace MermaidParser

open Graphsight (pyStrip insertUnique)

/-- Leading identifier match `[A-Za-z_]\w*` (maximal munch): the
identifier characters and the remainder. -/
def idTake : List Char → Option (List Char × List Char)
  | [] => none
  | c :: rest =>
    if c.isAlpha || c = '_' then
      let idcs := rest.takeWhile (fun ch => ch.isAlphanum || ch = '_')
      some (c :: idcs, rest.drop idcs.length)
    else none

/-- Quote removal of `_parse_node_ref` (drop a matching pair of double
or single quotes; a sole quote character strips to the empty string,
as `raw[1:-1]` does). -/
def stripQuotes (l : List Char) : List Char :=
  match l.head?, l.getLast? with
  | some h, some t =>
    if (h = '"' && t = '"') || (h = squote && t = squote) then (l.drop 1).dropLast
    else l
  | _, _ => l

/-- The inner text of a strict shape pattern `OPEN((?:.|\\n)+?)CLOSE$`:
the open bracket leads, the close bracket ends the text, the non-empty
inner text is everything in between (newline-free). -/
def strictInner (t : List Char) (op cl : List Char) : Option (List Char) :=
  if op.isPrefixOf t && cl.isSuffixOf t && op.length + cl.length < t.length then
    let inner := (t.drop op.length).take (t.length - op.length - cl.length)
    if inner.contains '\n' then none else some inner
  else none

/-- `SHAPE_PATTERNS` (match order matters: long patterns first). -/
def shapePatternList : List (List Char × List Char × String) :=
  [("([".toList, "])".toList, "stadium"),
   ("((".toList, "))".toList, "circle"),
   ("\x7b\x7b".toList, "\x7d\x7d".toList, "hex"),
   ("\x7b".toList, "\x7d".toList, "diamond"),
   ("[".toList, "]".toList, "rect"),
   ("(".toList, ")".toList, "round")]

/-- The opening brackets of the heuristic branch, alternation order,
with the shapes of `shape_map`. -/
def heuristicOpens : List (List Char × String) :=
  [("([".toList, "stadium"), ("((".toList, "circle"), ("\x7b\x7b".toList, "hex"),
   ("\x7b".toList, "diamond"), ("[".toList, "rect"), ("(".toList, "round")]

/-- Trailing-junk removal `(\]\)|\]|\)\)|\}|\}\})$` of the heuristic
branch: a two-character closing fragment at the end is dropped, else a
one-character one (`]` or a closing brace; a sole `)` is not in the
alternation). -/
def stripTrailJunk (l : List Char) : List Char :=
  if "])".toList.isSuffixOf l || "))".toList.isSuffixOf l
      || "\x7d\x7d".toList.isSuffixOf l then
    l.take (l.length - 2)
  else if "]".toList.isSuffixOf l || "\x7d".toList.isSuffixOf l then
    l.take (l.length - 1)
  else l

/-- The fallback id: keep word characters, replace the rest by
underscores, truncate to 20, prepend `N_` when empty or digit-led. -/
def sanitizeId (text : String) : String :=
  let cleaned := (text.toList.map
    (fun c => if c.isAlphanum || c = '_' then c else '_')).take 20
  match cleaned with
  | [] => "N_"
  | c :: _ => if c.isDigit then "N_" ++ String.mk cleaned else String.mk cleaned

/-- `if nid not in graph.nodes: graph.nodes[nid] = Node(...)`. -/
def registerNode (g : GraphStructure) (nid label shape : String) : GraphStructure :=
  if hasNode g nid then g
  else { g with nodes := g.nodes ++ [(nid, { id := nid, label := label, shape := shape })] }

/-- The strict branch shared by `_parse_node_ref` and
`_try_parse_standalone_node`: identifier, optional whitespace, the
first shape pattern whose brackets enclose the rest of the text;
yields id, raw inner text and shape. -/
def strictNodeMatch (t : List Char) : Option (String × String × String) :=
  match idTake t with
  | some (idcs, rest) =>
    let rest2 := rest.dropWhile Char.isWhitespace
    shapePatternList.findSome? (fun p =>
      match strictInner rest2 p.1 p.2.1 with
      | some inner => some (String.mk idcs, String.mk inner, p.2.2)
      | none => none)
  | none => none

/-- `MermaidParser._parse_node_ref`: strict shape parse (label
stripped, then quote-stripped), heuristic open-bracket rescue, bare
id, edge-label remnant, fallback sanitised id. -/
def parse_node_ref (text : String) (g : GraphStructure) : String × GraphStructure :=
  let t := text.toList
  match strictNodeMatch t with
  | some (nid, inner, shape) =>
    let label := String.mk (stripQuotes (pyStrip inner).toList)
    (nid, registerNode g nid label shape)
  | none =>
  let heur : Option (String × String × String) :=
    match idTake t with
    | some (idcs, rest) =>
      let rest2 := rest.dropWhile Char.isWhitespace
      heuristicOpens.findSome? (fun p =>
        if p.1.isPrefixOf rest2 then
          let raw := (rest2.drop p.1.length).takeWhile (· ≠ '\n')
          let lab0 := (pyStrip (String.mk raw)).toList
          some (String.mk idcs, String.mk (stripQuotes (stripTrailJunk lab0)), p.2)
        else none)
    | none => none
  match heur with
  | some (nid, label, shape) => (nid, registerNode g nid label shape)
  | none =>
  match idTake (pyStrip text).toList with
  | some (idcs, []) =>
    let nid := String.mk idcs
    (nid, registerNode g nid nid "rect")
  | _ =>
  let remnant : Option String :=
    match idTake t with
    | some (idcs, rest) =>
      if "--".toList.isPrefixOf (rest.dropWhile Char.isWhitespace) then
        some (String.mk idcs)
      else none
    | none => none
  match remnant with
  | some nid => (nid, registerNode g nid nid "rect")
  | none =>
  let nid := sanitizeId text
  (nid, registerNode g nid text "rect")

/-- `MermaidParser._try_parse_standalone_node`: strict shapes only; the
label is the stripped inner text, with NO quote removal. -/
def try_parse_standalone_node (line : List Char) (g : GraphStructure) : GraphStructure :=
  match strictNodeMatch line with
  | some (nid, inner, shape) => registerNode g nid (pyStrip inner) shape
  | none => g

end MermaidParser

end DraftRefine

namespace DraftRefine

namespace MermaidParser

open Graphsight (pyStrip insertUnique)

/-- String prefix test (`str.startswith`). -/
def strStartsWith (s p : String) : Bool :=
  p.toList.isPrefixOf s.toList

/-- `^KEYWORD\s+(TD|TB|LR|RL|BT)` (unanchored at the end): the matched
direction, if any. -/
def matchDirection (kw : String) (s : List Char) : Option String :=
  if kw.toList.isPrefixOf s then
    let rest := s.drop kw.toList.length
    let run := (rest.takeWhile Char.isWhitespace).length
    if run = 0 then none
    else
      let rest2 := rest.drop run
      ["TD", "TB", "LR", "RL", "BT"].findSome?
        (fun d => if d.toList.isPrefixOf rest2 then some d else none)
  else none

/-- Label/destination candidates of `\|(.+?)\|\s*(.+)$`: the lazily
shortest non-empty newline-free label up to a bar after which optional
whitespace and a non-empty destination reach the end of the line (the
greedy `\s*` leaves at least one character to `(.+)`); a failing bar
joins the label and the search continues. -/
def pipeLabelSplit : List Char → List Char → Option (String × String)
  | _, [] => none
  | acc, c :: rest =>
    if c = '\n' then none
    else if c = '|' && !acc.isEmpty then
      let run := (rest.takeWhile Char.isWhitespace).length
      let consumed := min run (rest.length - 1)
      let dst := rest.drop consumed
      if dst.isEmpty || dst.contains '\n' then pipeLabelSplit ('|' :: acc) rest
      else some (String.mk acc.reverse, String.mk dst)
    else pipeLabelSplit (c :: acc) rest

/-- Pipe pattern `^(.+?)\s*ARROW\s*\|(.+?)\|\s*(.+)$` for one arrow:
source lazily shortest (ascending split points), greedy whitespace,
the arrow token, whitespace, then the label/destination split.
Returns the raw groups (src, label, dst). -/
def tryPipePattern (arrow : List Char) (t : List Char) :
    Option (String × String × String) :=
  (List.range t.length).findSome? (fun i =>
    if i = 0 then none
    else
      let src := t.take i
      if src.contains '\n' then none
      else
        let rest := t.drop i
        let r2 := rest.dropWhile Char.isWhitespace
        if arrow.isPrefixOf r2 then
          let afterA := (r2.drop arrow.length).dropWhile Char.isWhitespace
          match afterA with
          | '|' :: r4 =>
            (pipeLabelSplit [] r4).map (fun p => (String.mk src, p.1, p.2))
          | _ => none
        else none)

/-- Bare pattern `^(.+?)\s*ARROW\s*(.+)$` for one arrow: raw groups
(src, dst). -/
def tryBarePattern (arrow : List Char) (t : List Char) :
    Option (String × String) :=
  (List.range t.length).findSome? (fun i =>
    if i = 0 then none
    else
      let src := t.take i
      if src.contains '\n' then none
      else
        let rest := t.drop i
        let r2 := rest.dropWhile Char.isWhitespace
        if arrow.isPrefixOf r2 then
          let afterA := r2.drop arrow.length
          let run2 := (afterA.takeWhile Char.isWhitespace).length
          let consumed := min run2 (afterA.length - 1)
          let dst := afterA.drop consumed
          if dst.isEmpty || dst.contains '\n' then none
          else some (String.mk src, String.mk dst)
        else none)

/-- `INLINE_LABEL_PATTERNS` arrows: the literal tail, the style, and
whether extra `>` characters are absorbed (the `-\.->+` pattern). -/
def inlinePatterns : List (List Char × String × Bool) :=
  [("-->".toList, "-->", false), ("---".toList, "---", false),
   ("-.->".toList, "-.->", true), ("==>".toList, "==>", false)]

/-- Inline-label pattern `^(.+?)\s+--\s+(.+?)\s+ARROW\s+(.+)$`: source
lazily shortest, a mandatory whitespace run, the literal `--`, a
greedy whitespace run backtracking down to one character, the lazily
shortest label, mandatory whitespace, the arrow (with optional extra
`>` for the dotted one), mandatory whitespace leaving a non-empty
destination.  Returns the raw groups (src, label, dst). -/
def tryInlinePattern (tailArrow : List Char) (plusGt : Bool) (t : List Char) :
    Option (String × String × String) :=
  (List.range t.length).findSome? (fun i =>
    if i = 0 then none
    else
      let src := t.take i
      if src.contains '\n' then none
      else
        let rest := t.drop i
        let run1 := (rest.takeWhile Char.isWhitespace).length
        if run1 = 0 then none
        else
          let r2 := rest.drop run1
          if "--".toList.isPrefixOf r2 then
            let r3 := r2.drop 2
            let run2 := (r3.takeWhile Char.isWhitespace).length
            (List.range run2).findSome? (fun back =>
              let u := run2 - back
              if u = 0 then none
              else
                let body := r3.drop u
                (List.range body.length).findSome? (fun k =>
                  if k = 0 then none
                  else
                    let label := body.take k
                    if label.contains '\n' then none
                    else
                      let r4 := body.drop k
                      let run3 := (r4.takeWhile Char.isWhitespace).length
                      if run3 = 0 then none
                      else
                        let r5 := r4.drop run3
                        if tailArrow.isPrefixOf r5 then
                          let r6 := r5.drop tailArrow.length
                          let r6b := if plusGt then r6.dropWhile (· = '>') else r6
                          let run4 := (r6b.takeWhile Char.isWhitespace).length
                          let consumed := min run4 (r6b.length - 1)
                          if run4 = 0 || consumed = 0 then none
                          else
                            let dst := r6b.drop consumed
                            if dst.isEmpty || dst.contains '\n' then none
                            else some (String.mk src, String.mk label, String.mk dst)
                        else none))
          else none)

/-- `re.search(rf'\s*ARROW\s*', remaining)` over the arrow patterns in
order: the first arrow token occurring anywhere wins; the match start
extends backwards over the whitespace run preceding the token, the
match end past the run following it.  Returns (text before the match,
style, text after the match). -/
def chainSearch (t : List Char) : Option (List Char × String × List Char) :=
  arrowTokens.findSome? (fun a =>
    (List.range t.length).findSome? (fun p =>
      if a.1.isPrefixOf (t.drop p) then
        let wsBefore := ((t.take p).reverse.takeWhile Char.isWhitespace).length
        let afterArrow := t.drop (p + a.1.length)
        some (t.take (p - wsBefore), a.2,
          afterArrow.drop (afterArrow.takeWhile Char.isWhitespace).length)
      else none))

/-- The splitting loop of `_parse_chained_edges`: non-empty stripped
parts between arrow matches, with the matched styles. -/
def chainLoop : Nat → List Char → List String × List String
  | 0, rem =>
    if (pyStrip (String.mk rem)) ≠ "" then ([pyStrip (String.mk rem)], []) else ([], [])
  | fuel + 1, rem =>
    if rem.isEmpty then ([], [])
    else
      match chainSearch rem with
      | some (pre, style, after) =>
        let part := pyStrip (String.mk pre)
        let r := chainLoop fuel after
        if part ≠ "" then (part :: r.1, style :: r.2) else (r.1, r.2)
      | none =>
        let part := pyStrip (String.mk rem)
        if part ≠ "" then ([part], []) else ([], [])

/-- Register the chain parts in order, threading the graph. -/
def mapNodeRefs : List String → GraphStructure → List String × GraphStructure
  | [], g => ([], g)
  | p :: rest, g =>
    let r := parse_node_ref p g
    let r2 := mapNodeRefs rest r.2
    (r.1 :: r2.1, r2.2)

/-- Consecutive node pairs become edges; the style list runs in step,
defaulting to `-->` when exhausted. -/
def addChainEdges : List String → List String → GraphStructure → GraphStructure
  | id1 :: id2 :: rest, arrows, g =>
    let style := arrows.headD "-->"
    addChainEdges (id2 :: rest) arrows.tail
      { g with edges := g.edges ++
          [{ src := id1, dst := id2, label := "", style := style }] }
  | _, _, g => g

/-- `MermaidParser._parse_chained_edges`. -/
def parse_chained_edges (line : List Char) (g : GraphStructure) :
    Bool × GraphStructure :=
  let pa := chainLoop line.length line
  if pa.1.length < 2 then (false, g)
  else
    let r := mapNodeRefs pa.1 g
    (true, addChainEdges r.1 pa.2 r.2)

/-- `MermaidParser._try_parse_edge`: inline-label syntax first, then
pipe syntax, then bare arrows (rerouted to the chain splitter when a
group still contains an arrow). -/
def try_parse_edge (line : List Char) (g : GraphStructure) :
    Bool × GraphStructure :=
  match inlinePatterns.findSome?
      (fun p => (tryInlinePattern p.1 p.2.2 line).map (fun r => (r, p.2.1))) with
  | some ((srcT, lbl, dstT), style) =>
    let r1 := parse_node_ref (pyStrip srcT) g
    let r2 := parse_node_ref (pyStrip dstT) r1.2
    (true, { r2.2 with edges := r2.2.edges ++
        [{ src := r1.1, dst := r2.1, label := pyStrip lbl, style := style }] })
  | none =>
  match arrowTokens.findSome?
      (fun a => (tryPipePattern a.1 line).map (fun r => (r, a.2))) with
  | some ((srcT, lbl, dstT), style) =>
    let r1 := parse_node_ref (pyStrip srcT) g
    let r2 := parse_node_ref (pyStrip dstT) r1.2
    (true, { r2.2 with edges := r2.2.edges ++
        [{ src := r1.1, dst := r2.1, label := pyStrip lbl, style := style }] })
  | none =>
  match arrowTokens.findSome?
      (fun a => (tryBarePattern a.1 line).map (fun r => (r, a.2))) with
  | some ((srcT, dstT), style) =>
    let srcS := pyStrip srcT
    let dstS := pyStrip dstT
    if containsArrowTok srcS.toList || containsArrowTok dstS.toList then
      parse_chained_edges line g
    else
      let r1 := parse_node_ref srcS g
      let r2 := parse_node_ref dstS r1.2
      (true, { r2.2 with edges := r2.2.edges ++
          [{ src := r1.1, dst := r2.1, label := "", style := style }] })
  | none => (false, g)

/-- One line of `MermaidParser.parse`: preprocess the stripped line,
skip blanks/comments/style/classDef/subgraph/end, set the direction on
graph/flowchart headers, else try an edge then a standalone node. -/
def parseLine (g : GraphStructure) (line : String) : GraphStructure :=
  let stripped := preprocess_line (pyStrip line)
  let t := stripped.toList
  if stripped = "" then g
  else if strStartsWith stripped "%%" then g
  else
    match matchDirection "graph" t with
    | some d => { g with direction := d }
    | none =>
    match matchDirection "flowchart" t with
    | some d => { g with direction := d }
    | none =>
    if strStartsWith stripped "style " || strStartsWith stripped "classDef " then g
    else if strStartsWith stripped "subgraph " || stripped = "end" then g
    else
      let r := try_parse_edge t g
      if r.1 then r.2 else try_parse_standalone_node t r.2

/-- `MermaidParser.parse`. -/
def parse (code : String) : GraphStructure :=
  (pySplitlines (pyStrip code)).foldl parseLine {}

end MermaidParser

end DraftRefine

namespace DraftRefine

/-- A plain two-node graph with escape-safe alphanumeric labels and a
labelled plain-line edge. -/
def g8b : GraphStructure :=
  { direction := "TD",
    nodes := [("A", { id := "A", label := "x" }), ("B", { id := "B", label := "y" })],
    edges := [{ src := "A", dst := "B", label := "Yes", style := "---" }] }

/-- The single-node restriction of the same graph. -/
def g8a : GraphStructure :=
  { direction := "TD", nodes := [("A", { id := "A", label := "x" })], edges := [] }

/-- C8: the serialize/parse round trip does NOT reproduce node ids,
labels and edge pairs, even for graphs whose ids are unique plain
identifiers and whose labels are escape-safe alphanumeric text.  Two
failures are exhibited.  (a) A single rect node with label `x`
serialises to the line `A["x"]`; the standalone-node branch of the
parser keeps the surrounding quotes, so the reparsed label is `"x"`,
not `x`.  (b) A labelled `---` edge serialises to `A ---|Yes| B`; the
fifth preprocess rewrite mangles it to `A - ---|Yes| B`, whose pipe
parse takes `A -` as the source reference, which falls through to the
sanitising fallback: the reparsed graph has a spurious node `A__` and
its edge pair is `(A__, B)` instead of `(A, B)`. -/
theorem C8_theorem :
    ((MermaidParser.parse g8a.to_mermaid).nodes =
        [("A", { id := "A", label := "\"x\"", shape := "rect", actor := none })] ∧
      g8a.nodes.map (fun p => p.2.label) = ["x"]) ∧
    ((MermaidParser.parse g8b.to_mermaid).nodes.map Prod.fst = ["A", "B", "A__"] ∧
      g8b.nodes.map Prod.fst = ["A", "B"] ∧
      (MermaidParser.parse g8b.to_mermaid).edges.map (fun e => (e.src, e.dst)) =
        [("A__", "B")] ∧
      g8b.edges.map (fun e => (e.src, e.dst)) = [("A", "B")]) :=
  ⟨⟨rfl, rfl⟩, ⟨rfl, rfl, rfl, rfl⟩⟩

end DraftRefine
